import Mathlib

/-!
# Verification of the sagus utility library

A shallow embedding of the functions in `src/index.ts` of the sagus
repository, together with theorems settling the specification claims.

Conventions used throughout:

* JavaScript numbers that hold nonnegative integers (timestamps, counters,
  byte values) are modelled as `Nat`; values that can be negative (array
  indices such as `length - 1`) as `Int`.
* JavaScript `undefined` results of indexing are modelled with `Option`.
* A JavaScript statement that throws is modelled by a function returning
  `none` / `Option.none` on the throwing input.
* Platform primitives (`Buffer`, `JSON`, `crypto`) are modelled explicitly
  where their input/output behaviour decides a claim; the AES block cipher
  itself is kept abstract (an arbitrary keystream function), since CTR mode
  only XORs its keystream into the data.
-/

namespace Sagus

/-! ## Base-N digit rendering

`Number.prototype.toString(36)` and decimal rendering, with an explicit
fuel argument so that the functions are structurally recursive (any fuel
larger than the number suffices). -/

/-- Digit characters `0-9` then `a-z`, as used by JavaScript
`Number.prototype.toString(radix)` for radixes up to 36. -/
def digitChar (d : Nat) : Char :=
  if d < 10 then Char.ofNat (48 + d) else Char.ofNat (87 + d)

/-- Digits of `n` in base `b`, most significant first.  Fuel-based
structural recursion; `fuel > n` suffices for a correct answer. -/
def toBaseChars (b : Nat) : Nat → Nat → List Char
  | 0, _ => []
  | fuel+1, n =>
    if n < b then [digitChar n]
    else toBaseChars b fuel (n / b) ++ [digitChar (n % b)]

/-- JS `n.toString(36)` for a nonnegative integer `n`. -/
def toBase36 (n : Nat) : String := String.mk (toBaseChars 36 (n + 1) n)

/-- Decimal digit characters of a natural number. -/
def decChars (n : Nat) : List Char := toBaseChars 10 (n + 1) n

/-- Decimal rendering of an integer (as printed by `JSON.stringify` for an
integer-valued number). -/
def intChars (i : Int) : List Char :=
  if i < 0 then '-' :: decChars i.natAbs else decChars i.natAbs

/-- Numeric value of a digit character: inverse of `digitChar`, also
accepting upper-case hex letters.  Non-digit characters map to 0. -/
def digitVal (c : Char) : Nat :=
  if 48 ≤ c.toNat ∧ c.toNat ≤ 57 then c.toNat - 48
  else if 97 ≤ c.toNat ∧ c.toNat ≤ 122 then c.toNat - 87
  else if 65 ≤ c.toNat ∧ c.toNat ≤ 90 then c.toNat - 55
  else 0

/-- Value of a big-endian digit string in base `b`. -/
def baseVal (b : Nat) (cs : List Char) : Nat :=
  cs.foldl (fun acc c => b * acc + digitVal c) 0

/-! ## The unique-timestamp accessor (`getUniqueTime`)

```js
function getUniqueTime() {
  const time = Date.now();
  const last = lastTime || time;
  return (lastTime = time > last ? time : last + 1);
}
```

The wall clock `Date.now()` is an input; the mutable `lastTime` is passed
explicitly (it starts at 0).  The returned value is also the new state. -/

/-- One call of `getUniqueTime`, given the clock reading `time` and the
previous `lastTime` value `last0`.  `lastTime || time` substitutes `time`
for a zero (falsy) `lastTime`. -/
def getUniqueTime (time last0 : Nat) : Nat :=
  let last := if last0 = 0 then time else last0
  if last < time then time else last + 1

/-- Modelled from the spec: the claimed algorithm for the accessor — read
`now`; if `now > lastTime` set `lastTime = now` else `lastTime = lastTime + 1`;
return the updated `lastTime`.  (This is the claim's wording; it omits the
`lastTime || time` substitution the code performs.) -/
def specGetUniqueTime (time last0 : Nat) : Nat :=
  if last0 < time then time else last0 + 1

/-- The values returned by a sequence of `getUniqueTime` calls with the
given clock readings, starting from state `s`. -/
def runUniqueOuts : List Nat → Nat → List Nat
  | [], _ => []
  | now :: rest, s => getUniqueTime now s :: runUniqueOuts rest (getUniqueTime now s)

/-- `genUID(prefix, suffix)` at the moment the timestamp accessor returns
`t`; the process constants `mac` and `pid` are parameters. -/
def genUID (macS pidS pre suf : String) (t : Nat) : String :=
  pre ++ macS ++ pidS ++ toBase36 t ++ suf

/-! ## The interface identity (module initialisation)

```js
loop: for (let interfaceKey in netInterfaces) {
  const netInterface = netInterfaces[interfaceKey]!;
  for (let index = 0; index < netInterface.length; index++) {
    const macAddr = netInterface[index]?.mac;
    if (macAddr && macAddr != '00:00:00:00:00:00') {
      mac = parseInt(macAddr.replace(/\:|\D+/gi, '')).toString(36);
      break loop;
    }
  }
}
```

The OS interface table is an input: a list of interfaces, each a list of
hardware-address strings. -/

def allZeroMac : String := "00:00:00:00:00:00"

/-- Inner loop: first address that is truthy (non-empty) and not the
all-zero address. -/
def findIfaceMac : List String → Option String
  | [] => none
  | m :: rest => if m ≠ "" ∧ m ≠ allZeroMac then some m else findIfaceMac rest

/-- Outer loop over the interfaces (with its labelled break). -/
def findMac : List (List String) → Option String
  | [] => none
  | iface :: rest =>
    match findIfaceMac iface with
    | some m => some m
    | none => findMac rest

/-- `macAddr.replace(/\:|\D+/gi, '')`: every match of `:` or of a run of
non-digit characters is deleted, so exactly the decimal digits remain. -/
def stripNonDigits (s : String) : String := String.mk (s.data.filter Char.isDigit)

/-- JS `parseInt` restricted to the all-digit strings produced by
`stripNonDigits`: `NaN` (`none`) on the empty string, otherwise the decimal
value of the digits. -/
def jsParseIntDigits (s : String) : Option Nat :=
  match s.data with
  | [] => none
  | cs => some (baseVal 10 cs)

/-- The `mac` module constant as a function of the interface table;
`NaN.toString(36)` is the string `"NaN"`. -/
def macOfInterfaces (ifs : List (List String)) : String :=
  match findMac ifs with
  | none => ""
  | some m =>
    match jsParseIntDigits (stripNonDigits m) with
    | none => "NaN"
    | some n => toBase36 n

/-- Is `c` a hexadecimal digit character? -/
def isHexDigitChar (c : Char) : Bool :=
  (48 ≤ c.toNat && c.toNat ≤ 57) || (97 ≤ c.toNat && c.toNat ≤ 102) ||
    (65 ≤ c.toNat && c.toNat ≤ 70)

/-- Modelled from the spec: the claim's derivation — take the first
hardware address not equal to the all-zero address, strip only the
non-hexadecimal separator characters, parse the remainder as a (hex)
integer, render base-36; empty string when none qualifies. -/
def specMacOfInterfaces (ifs : List (List String)) : String :=
  match (ifs.flatten).find? (fun m => decide (m ≠ allZeroMac)) with
  | none => ""
  | some m => toBase36 (baseVal 16 (m.data.filter isHexDigitChar))

/-! ## Namespaced auto-increment IDs (`genAutoID` / `resetAutoID`)

The registry `autoIDGenerators` maps a namespace key to a suspended
generator whose next value is a counter; it is modelled as an association
list from the key to the next value to hand out. -/

/-- The namespace-counter registry: key ↦ next id the generator yields. -/
abbrev AutoState := List (String × Nat)

/-- `genAutoID(namespace)`: create the counter at 0 on first use (the new
key is appended, as JS property insertion does), return the next value. -/
def genAutoID (ns : String) (st : AutoState) : Nat × AutoState :=
  match st.lookup ns with
  | some n => (n, st.map (fun p => if p.1 = ns then (p.1, n + 1) else p))
  | none => (0, st ++ [(ns, 1)])

/-- `resetAutoID(namespace)`: delete the counter if present. -/
def resetAutoID (ns : String) (st : AutoState) : AutoState :=
  st.filter (fun p => p.1 ≠ ns)

/-- The values returned by `k` successive `genAutoID` calls for `ns`. -/
def runAutoID (ns : String) : Nat → AutoState → List Nat
  | 0, _ => []
  | k+1, st => (genAutoID ns st).1 :: runAutoID ns k (genAutoID ns st).2

/-! ## JavaScript runtime values: `isValid` and `trimObject` -/

/-- A model of the JavaScript values that `isValid` and `trimObject`
inspect: `undefined`, `null`, booleans, `NaN`, other (integer-valued)
numbers, strings, arrays and plain objects (ordered string-keyed
fields). -/
inductive JSVal where
  | undef
  | jnull
  | bool (b : Bool)
  | nan
  | num (n : Int)
  | str (s : String)
  | arr (elems : List JSVal)
  | obj (fields : List (String × JSVal))
deriving Repr

/-- The characters removed by `String.prototype.trim` (ECMAScript
WhiteSpace and LineTerminator). -/
def jsIsWs (c : Char) : Bool :=
  c.toNat = 32 || c.toNat = 9 || c.toNat = 10 || c.toNat = 11 || c.toNat = 12 ||
    c.toNat = 13 || c.toNat = 0xa0 || c.toNat = 0xfeff || c.toNat = 0x1680 ||
    (0x2000 ≤ c.toNat && c.toNat ≤ 0x200a) || c.toNat = 0x2028 || c.toNat = 0x2029 ||
    c.toNat = 0x202f || c.toNat = 0x205f || c.toNat = 0x3000

/-- `isValid(value)`: false exactly for `undefined`, `null`, strings whose
`trim()` is empty, and `NaN`. -/
def isValid : JSVal → Bool
  | .undef => false
  | .jnull => false
  | .str s => !(s.data.all jsIsWs)
  | .nan => false
  | _ => true

/-- `trimObject(obj)` on the ordered field list of a plain object: keep a
field iff its value `isValid`, recursing into plain-object values
(`typeof value === 'object' && !Array.isArray(value)`; `null` was already
discarded by `isValid`) and copying every other value, arrays included. -/
def trimObject : List (String × JSVal) → List (String × JSVal)
  | [] => []
  | (k, v) :: rest =>
    if isValid v then
      (match v with
       | .obj fields => (k, JSVal.obj (trimObject fields))
       | _ => (k, v)) :: trimObject rest
    else trimObject rest
termination_by l => sizeOf l

/-- The transformation `trimObject` applies to a kept value: recurse into a
plain object, copy anything else. -/
def trimInner : JSVal → JSVal
  | .obj fields => .obj (trimObject fields)
  | v => v

/-- The claim's description of a removed value: `null`, `undefined`, `NaN`
or an empty/whitespace-only string. -/
def claimInvalid : JSVal → Bool
  | .undef => true
  | .jnull => true
  | .nan => true
  | .str s => s.data.all jsIsWs
  | _ => false

/-! ## Generic paired iteration (`iterate`)

```js
export function* iterate(input) {
  if (Array.isArray(input)) {
    for (let index = 0; index < input.length - 1; index++) {
      yield { key: index, value: input[index] };
    }
    const lastIndex = input.length - 1;
    return { key: lastIndex, value: input[lastIndex]! };
  }
  const entries = Object.entries(input);
  for (let index = 0; index < entries.length - 1; index++) {
    const [key, value] = entries[index]!;
    yield { key, value };
  }
  const lastIndex = entries.length - 1;
  const [key, value] = entries[lastIndex]!;
  return { key, value };
}
```

A JS generator's `return` value is delivered in the `done: true` result,
which the standard iteration protocol (`for..of`, spread) does not include
in the sequence; the model keeps the yielded pairs and the returned pair
separate. -/

/-- JS array indexing at an `Int` index: `undefined` (`none`) when out of
range, negative indices included. -/
def jsIndex {α : Type} (l : List α) (i : Int) : Option α :=
  if i < 0 then none else l.get? i.toNat

/-- `iterate` on an array: the yielded pairs (indices `0 … length-2`) and
the returned final pair `{ key: length-1, value: input[length-1] }` (which
is `{ key: -1, value: undefined }` on the empty array). -/
def iterateArr {α : Type} (l : List α) : List (Int × Option α) × (Int × Option α) :=
  ((List.range (l.length - 1)).map (fun (i : Nat) => ((i : Int), jsIndex l i)),
    ((l.length : Int) - 1, jsIndex l ((l.length : Int) - 1)))

/-- `iterate` on a plain object (its `Object.entries` list, in insertion
order): `none` models the TypeError thrown by destructuring
`entries[lastIndex]!` when the entry list is empty (`entries[-1]` is
`undefined`); otherwise the yielded entries and the returned last entry. -/
def iterateObj {α : Type} (l : List (String × α)) :
    Option (List (String × α) × (String × α)) :=
  match jsIndex l ((l.length : Int) - 1) with
  | none => none
  | some last => some ((List.range (l.length - 1)).filterMap (fun i => l.get? i), last)

/-! ## JSON serialisation (the platform `JSON.stringify` / `JSON.parse`)

`encode`/`decode`/`encrypt`/`decrypt` serialise their payload with
`JSON.stringify` and re-read it with `JSON.parse`.  The payload domain is
modelled as the JSON value tree with integer-valued numbers (IEEE doubles
and their decimal formatting are outside the model); the printer follows
`JSON.stringify` (no whitespace, short escapes, `\u00XX` for other control
characters) and the reader is a model of `JSON.parse` on this fragment
(it accepts the grammar with whitespace and the standard string escapes,
integer numbers only). -/

inductive Json where
  | null
  | bool (b : Bool)
  | num (n : Int)
  | str (s : String)
  | arr (elems : List Json)
  | obj (fields : List (String × Json))

/-- The left brace character (written by codepoint throughout). -/
def lbrace : Char := Char.ofNat 123

/-- The right brace character. -/
def rbrace : Char := Char.ofNat 125

/-- `JSON.stringify` escaping of one string character: `\"`, `\\`, the
short control escapes, `\u00XX` for the other control characters, and the
character itself otherwise. -/
def escapeChar (c : Char) : List Char :=
  if c = '"' then ['\\', '"']
  else if c = '\\' then ['\\', '\\']
  else if c.toNat = 8 then ['\\', 'b']
  else if c.toNat = 9 then ['\\', 't']
  else if c.toNat = 10 then ['\\', 'n']
  else if c.toNat = 12 then ['\\', 'f']
  else if c.toNat = 13 then ['\\', 'r']
  else if c.toNat < 32 then ['\\', 'u', '0', '0', digitChar (c.toNat / 16), digitChar (c.toNat % 16)]
  else [c]

/-- Escape every character of a string body. -/
def escapeList (cs : List Char) : List Char := cs.flatMap escapeChar

/-- The characters of a JSON string literal. -/
def strChars (s : String) : List Char := '"' :: (escapeList s.data ++ ['"'])

mutual

/-- The characters `JSON.stringify` prints for a value. -/
def printChars : Json → List Char
  | .null => 'n' :: ['u', 'l', 'l']
  | .bool true => 't' :: ['r', 'u', 'e']
  | .bool false => 'f' :: ['a', 'l', 's', 'e']
  | .num n => intChars n
  | .str s => strChars s
  | .arr es => '[' :: (printItems es ++ [']'])
  | .obj fs => lbrace :: (printFields fs ++ [rbrace])
termination_by v => sizeOf v

/-- Comma-separated array elements. -/
def printItems : List Json → List Char
  | [] => []
  | [e] => printChars e
  | e :: e2 :: rest => printChars e ++ ',' :: printItems (e2 :: rest)
termination_by l => sizeOf l

/-- Comma-separated `"key":value` fields. -/
def printFields : List (String × Json) → List Char
  | [] => []
  | [(k, v)] => strChars k ++ ':' :: printChars v
  | (k, v) :: f2 :: rest => strChars k ++ ':' :: printChars v ++ ',' :: printFields (f2 :: rest)
termination_by l => sizeOf l

end

/-- `JSON.stringify` (on the modelled fragment). -/
def stringify (v : Json) : String := String.mk (printChars v)

/-- JSON whitespace (accepted between tokens by `JSON.parse`). -/
def jsonWs (c : Char) : Bool := c = ' ' || c = '\t' || c = '\n' || c = '\r'

/-- Skip JSON whitespace. -/
def skipWs (cs : List Char) : List Char := cs.dropWhile jsonWs

/-- Hex digit value, `none` for a non-hex-digit character. -/
def hexVal? (c : Char) : Option Nat :=
  if 48 ≤ c.toNat ∧ c.toNat ≤ 57 then some (c.toNat - 48)
  else if 97 ≤ c.toNat ∧ c.toNat ≤ 102 then some (c.toNat - 87)
  else if 65 ≤ c.toNat ∧ c.toNat ≤ 70 then some (c.toNat - 55)
  else none

/-- The character a single-character JSON string escape denotes. -/
def unescapeChar (c : Char) : Option Char :=
  if c = '"' then some '"'
  else if c = '\\' then some '\\'
  else if c = '/' then some '/'
  else if c = 'b' then some (Char.ofNat 8)
  else if c = 't' then some (Char.ofNat 9)
  else if c = 'n' then some (Char.ofNat 10)
  else if c = 'f' then some (Char.ofNat 12)
  else if c = 'r' then some (Char.ofNat 13)
  else none

/-- Parse the body of a JSON string literal after the opening quote,
returning the decoded characters and the input after the closing quote
(`\uXXXX` escapes are taken as single scalar values; surrogate-pair
recombination is outside the model). -/
def parseStringRest : List Char → Option (List Char × List Char)
  | [] => none
  | c :: rest =>
    if c = '"' then some ([], rest)
    else if c = '\\' then
      match rest with
      | [] => none
      | e :: rest2 =>
        if e = 'u' then
          match rest2 with
          | h1 :: h2 :: h3 :: h4 :: rest3 =>
            match hexVal? h1, hexVal? h2, hexVal? h3, hexVal? h4 with
            | some a, some b, some c2, some d =>
              match parseStringRest rest3 with
              | some (ds, r) => some (Char.ofNat (4096 * a + 256 * b + 16 * c2 + d) :: ds, r)
              | none => none
            | _, _, _, _ => none
          | _ => none
        else
          match unescapeChar e with
          | some u =>
            match parseStringRest rest2 with
            | some (ds, r) => some (u :: ds, r)
            | none => none
          | none => none
    else
      match parseStringRest rest with
      | some (ds, r) => some (c :: ds, r)
      | none => none

/-- Parse a maximal run of decimal digits as a natural number. -/
def parseNat (cs : List Char) : Option (Nat × List Char) :=
  let ds := cs.takeWhile Char.isDigit
  if ds.isEmpty then none else some (baseVal 10 ds, cs.dropWhile Char.isDigit)

/-- Parse a JSON number (integer fragment: optional minus, digits). -/
def parseNumber (cs : List Char) : Option (Json × List Char) :=
  match cs with
  | '-' :: cs2 =>
    match parseNat cs2 with
    | some (n, rest) => some (.num (-(n : Int)), rest)
    | none => none
  | _ =>
    match parseNat cs with
    | some (n, rest) => some (.num (n : Int), rest)
    | none => none

mutual

/-- Parse one JSON value.  The fuel bounds the nesting depth of recursive
parser calls; any fuel at least `needV` of the value suffices. -/
def parseValue : Nat → List Char → Option (Json × List Char)
  | 0, _ => none
  | fuel+1, cs =>
    match skipWs cs with
    | [] => none
    | c :: rest =>
      if c = '"' then
        match parseStringRest rest with
        | some (ds, r) => some (.str (String.mk ds), r)
        | none => none
      else if c = '[' then
        match skipWs rest with
        | [] => none
        | c2 :: r2 =>
          if c2 = ']' then some (.arr [], r2)
          else
            match parseItems fuel (c2 :: r2) with
            | some (es, r) => some (.arr es, r)
            | none => none
      else if c = lbrace then
        match skipWs rest with
        | [] => none
        | c2 :: r2 =>
          if c2 = rbrace then some (.obj [], r2)
          else
            match parseFields fuel (c2 :: r2) with
            | some (fs, r) => some (.obj fs, r)
            | none => none
      else if c = '-' || c.isDigit then parseNumber (c :: rest)
      else
        match c :: rest with
        | 'n' :: 'u' :: 'l' :: 'l' :: r => some (.null, r)
        | 't' :: 'r' :: 'u' :: 'e' :: r => some (.bool true, r)
        | 'f' :: 'a' :: 'l' :: 's' :: 'e' :: r => some (.bool false, r)
        | _ => none

/-- Parse one or more comma-separated values up to the closing `]`. -/
def parseItems : Nat → List Char → Option (List Json × List Char)
  | 0, _ => none
  | fuel+1, cs =>
    match parseValue fuel cs with
    | none => none
    | some (v, r) =>
      match skipWs r with
      | [] => none
      | c :: r2 =>
        if c = ',' then
          match parseItems fuel r2 with
          | some (es, r3) => some (v :: es, r3)
          | none => none
        else if c = ']' then some ([v], r2)
        else none

/-- Parse one or more comma-separated `"key":value` fields up to the
closing brace. -/
def parseFields : Nat → List Char → Option (List (String × Json) × List Char)
  | 0, _ => none
  | fuel+1, cs =>
    match skipWs cs with
    | [] => none
    | c :: r =>
      if c = '"' then
        match parseStringRest r with
        | none => none
        | some (kds, r2) =>
          match skipWs r2 with
          | [] => none
          | c2 :: r3 =>
            if c2 = ':' then
              match parseValue fuel r3 with
              | none => none
              | some (v, r4) =>
                match skipWs r4 with
                | [] => none
                | c3 :: r5 =>
                  if c3 = ',' then
                    match parseFields fuel r5 with
                    | some (fs, r6) => some ((String.mk kds, v) :: fs, r6)
                    | none => none
                  else if c3 = rbrace then some ([(String.mk kds, v)], r5)
                  else none
            else none
      else none

end

mutual

/-- Sufficient parser fuel for a value. -/
def needV : Json → Nat
  | .arr l => 1 + needI l
  | .obj l => 1 + needF l
  | _ => 1
termination_by v => sizeOf v

/-- Sufficient parser fuel for an array tail. -/
def needI : List Json → Nat
  | [] => 1
  | e :: es => 1 + max (needV e) (needI es)
termination_by l => sizeOf l

/-- Sufficient parser fuel for an object tail. -/
def needF : List (String × Json) → Nat
  | [] => 1
  | (_, v) :: fs => 1 + max (needV v) (needF fs)
termination_by l => sizeOf l

end

/-- `JSON.parse` (on the modelled fragment): parse one value and require
only whitespace after it. -/
def parseJson (s : String) : Option Json :=
  match parseValue (s.data.length + 1) s.data with
  | some (v, rest) => if skipWs rest = [] then some v else none
  | none => none

/-! ## Bytes and `Buffer` text encodings

Byte lists model Node `Buffer`s (entries < 256; theorems carry that bound
where it matters). -/

/-- UTF-8 bytes of one scalar value. -/
def utf8EncodeChar (c : Char) : List Nat :=
  let n := c.toNat
  if n < 0x80 then [n]
  else if n < 0x800 then [0xc0 + n / 64, 0x80 + n % 64]
  else if n < 0x10000 then [0xe0 + n / 4096, 0x80 + (n / 64) % 64, 0x80 + n % 64]
  else [0xf0 + n / 262144, 0x80 + (n / 4096) % 64, 0x80 + (n / 64) % 64, 0x80 + n % 64]

/-- `Buffer.from(str)`: the UTF-8 bytes of a string. -/
def utf8Encode (s : String) : List Nat := s.data.flatMap utf8EncodeChar

/-- Read the continuation byte of a 2-byte UTF-8 sequence with lead byte
`b`: the scalar value (checked against overlong encoding) and the rest. -/
def utf8Dec2 (b : Nat) : List Nat → Option (Nat × List Nat)
  | b2 :: rest2 =>
    if (0x80 ≤ b2 ∧ b2 < 0xc0) ∧ 0x80 ≤ (b - 0xc0) * 64 + (b2 - 0x80) then
      some ((b - 0xc0) * 64 + (b2 - 0x80), rest2)
    else none
  | [] => none

/-- Read the continuation bytes of a 3-byte UTF-8 sequence with lead byte
`b` (no overlong encodings, no surrogate values). -/
def utf8Dec3 (b : Nat) : List Nat → Option (Nat × List Nat)
  | b2 :: b3 :: rest3 =>
    if (0x80 ≤ b2 ∧ b2 < 0xc0) ∧ (0x80 ≤ b3 ∧ b3 < 0xc0) then
      if 0x800 ≤ (b - 0xe0) * 4096 + (b2 - 0x80) * 64 + (b3 - 0x80) ∧
          ((b - 0xe0) * 4096 + (b2 - 0x80) * 64 + (b3 - 0x80) < 0xd800 ∨
            0xdfff < (b - 0xe0) * 4096 + (b2 - 0x80) * 64 + (b3 - 0x80)) then
        some ((b - 0xe0) * 4096 + (b2 - 0x80) * 64 + (b3 - 0x80), rest3)
      else none
    else none
  | _ => none

/-- Read the continuation bytes of a 4-byte UTF-8 sequence with lead byte
`b`. -/
def utf8Dec4 (b : Nat) : List Nat → Option (Nat × List Nat)
  | b2 :: b3 :: b4 :: rest4 =>
    if (0x80 ≤ b2 ∧ b2 < 0xc0) ∧ (0x80 ≤ b3 ∧ b3 < 0xc0) ∧ (0x80 ≤ b4 ∧ b4 < 0xc0) then
      if 0x10000 ≤ (b - 0xf0) * 262144 + (b2 - 0x80) * 4096 + (b3 - 0x80) * 64 + (b4 - 0x80) ∧
          (b - 0xf0) * 262144 + (b2 - 0x80) * 4096 + (b3 - 0x80) * 64 + (b4 - 0x80) < 0x110000 then
        some ((b - 0xf0) * 262144 + (b2 - 0x80) * 4096 + (b3 - 0x80) * 64 + (b4 - 0x80), rest4)
      else none
    else none
  | _ => none

/-- UTF-8 decoder loop (strict: Node's `toString()` substitutes U+FFFD for
invalid sequences instead, but agrees with the strict decoder on valid
UTF-8 — in particular on `utf8Encode` output).  Fuel-based structural
recursion; each decoded character consumes one unit, so fuel at least the
byte count suffices. -/
def utf8DecodeCharsF : Nat → List Nat → Option (List Char)
  | _, [] => some []
  | 0, _ :: _ => none
  | fuel+1, b :: rest =>
    if b < 0x80 then
      match utf8DecodeCharsF fuel rest with
      | some cs => some (Char.ofNat b :: cs)
      | none => none
    else if b < 0xc0 then none
    else
      match (if b < 0xe0 then utf8Dec2 b rest
             else if b < 0xf0 then utf8Dec3 b rest
             else if b < 0xf8 then utf8Dec4 b rest
             else none) with
      | some (n, rest2) =>
        match utf8DecodeCharsF fuel rest2 with
        | some cs => some (Char.ofNat n :: cs)
        | none => none
      | none => none

/-- UTF-8 decoder as the character list. -/
def utf8DecodeChars (bs : List Nat) : Option (List Char) := utf8DecodeCharsF bs.length bs

/-- `buffer.toString()` (UTF-8 decoding to a string). -/
def utf8Decode (bs : List Nat) : Option String :=
  match utf8DecodeChars bs with
  | some cs => some (String.mk cs)
  | none => none

/-- The base64 alphabet character of a sextet. -/
def b64Char (i : Nat) : Char :=
  if i < 26 then Char.ofNat (65 + i)
  else if i < 52 then Char.ofNat (i + 71)
  else if i < 62 then Char.ofNat (i - 4)
  else if i = 62 then '+'
  else '/'

/-- Sextet value of a base64 alphabet character (`none` for every other
character, `=` included). -/
def b64Val? (c : Char) : Option Nat :=
  if 65 ≤ c.toNat ∧ c.toNat ≤ 90 then some (c.toNat - 65)
  else if 97 ≤ c.toNat ∧ c.toNat ≤ 122 then some (c.toNat - 71)
  else if 48 ≤ c.toNat ∧ c.toNat ≤ 57 then some (c.toNat + 4)
  else if c = '+' then some 62
  else if c = '/' then some 63
  else none

/-- `buffer.toString('base64')`: standard alphabet with `=` padding. -/
def b64Chars : List Nat → List Char
  | b1 :: b2 :: b3 :: rest =>
    b64Char (b1 / 4) :: b64Char ((b1 % 4) * 16 + b2 / 16) ::
      b64Char ((b2 % 16) * 4 + b3 / 64) :: b64Char (b3 % 64) :: b64Chars rest
  | [b1, b2] => [b64Char (b1 / 4), b64Char ((b1 % 4) * 16 + b2 / 16), b64Char ((b2 % 16) * 4), '=']
  | [b1] => [b64Char (b1 / 4), b64Char ((b1 % 4) * 16), '=', '=']
  | [] => []

/-- Recombine sextets into bytes (groups of 4; a trailing 2 or 3 sextets
yield 1 or 2 bytes). -/
def b64DecodeSextets : List Nat → List Nat
  | a :: b :: c :: d :: rest =>
    (a * 4 + b / 16) :: ((b % 16) * 16 + c / 4) :: ((c % 4) * 64 + d) :: b64DecodeSextets rest
  | [a, b] => [a * 4 + b / 16]
  | [a, b, c] => [a * 4 + b / 16, (b % 16) * 16 + c / 4]
  | _ => []

/-- `Buffer.from(str, 'base64')`: Node's forgiving decoder — characters
outside the alphabet (padding and noise) are ignored, the sextets are then
recombined; it never throws. -/
def b64Decode (cs : List Char) : List Nat := b64DecodeSextets (cs.filterMap b64Val?)

/-- `buffer.toString('hex')`: two lowercase hex digits per byte. -/
def hexChars : List Nat → List Char
  | [] => []
  | b :: rest => digitChar (b / 16) :: digitChar (b % 16) :: hexChars rest

/-- `Buffer.from(str, 'hex')`: parse hex pairs, stopping at the first
invalid pair or lone trailing digit; never throws. -/
def hexDecode : List Char → List Nat
  | c1 :: c2 :: rest =>
    match hexVal? c1, hexVal? c2 with
    | some a, some b => (16 * a + b) :: hexDecode rest
    | _, _ => []
  | _ => []

/-- `buffer.toString('latin1')`: one character per byte. -/
def latin1Chars (bs : List Nat) : List Char := bs.map (fun b => Char.ofNat (b % 256))

/-- `Buffer.from(str, 'latin1')`: the character code masked to a byte. -/
def latin1Decode (cs : List Char) : List Nat := cs.map (fun c => c.toNat % 256)

/-- The UTF-16 code units of a string (surrogate pairs for astral
characters). -/
def utf16Units (s : String) : List Nat :=
  s.data.flatMap (fun c =>
    if c.toNat < 0x10000 then [c.toNat]
    else [0xd800 + (c.toNat - 0x10000) / 1024, 0xdc00 + (c.toNat - 0x10000) % 1024])

/-- `Buffer.from(str, 'utf16le')`: two little-endian bytes per code
unit. -/
def utf16leDecode (s : String) : List Nat :=
  (utf16Units s).flatMap (fun u => [u % 256, u / 256 % 256])

/-- `buffer.toString('utf16le')`: pair consecutive bytes little-endian
into code units; a trailing odd byte is dropped.  (Units that are scalar
values become the corresponding characters; surrogate recombination is
outside the model — the claims only exercise the scalar case.) -/
def utf16leChars : List Nat → List Char
  | b0 :: b1 :: rest => Char.ofNat (b0 % 256 + 256 * (b1 % 256)) :: utf16leChars rest
  | _ => []

/-- The modelled subset of Node's `BufferEncoding`. -/
inductive BufEncoding where
  | base64
  | hex
  | latin1
  | utf16le

/-- `buf.toString(enc)`. -/
def bufToString (bs : List Nat) : BufEncoding → String
  | .base64 => String.mk (b64Chars bs)
  | .hex => String.mk (hexChars bs)
  | .latin1 => String.mk (latin1Chars bs)
  | .utf16le => String.mk (utf16leChars bs)

/-- `Buffer.from(str, enc)`. -/
def bufFromString (s : String) : BufEncoding → List Nat
  | .base64 => b64Decode s.data
  | .hex => hexDecode s.data
  | .latin1 => latin1Decode s.data
  | .utf16le => utf16leDecode s

/-! ## `encode` / `decode` -/

/-- `encode(data, encoding)`: `Buffer.from(JSON.stringify(data)).toString(encoding)`
(the source defaults `encoding` to base64). -/
def encode (data : Json) (encoding : BufEncoding) : String :=
  bufToString (utf8Encode (stringify data)) encoding

/-- `decode(str, encoding)`:
`JSON.parse(Buffer.from(str, encoding).toString())`; a `JSON.parse` throw
is modelled as `none`. -/
def decode (s : String) (encoding : BufEncoding) : Option Json :=
  match utf8Decode (bufFromString s encoding) with
  | some txt => parseJson txt
  | none => none

/-! ## `encrypt` / `decrypt` (AES-256-CTR)

The AES block cipher is a platform primitive; all that `encrypt`/`decrypt`
build on is that CTR mode turns it into a keystream determined by
`(key, iv)` that is XORed into the data — identically for encryption and
decryption.  The keystream is therefore an arbitrary function parameter
`ks`. -/

/-- The record `encrypt` returns: base64 iv and base64 ciphertext. -/
structure EncResult where
  iv : String
  encryptedData : String

/-- XOR a keystream into a byte list, starting at stream position `i`. -/
def ctrXorFrom (ks : Nat → Nat) : Nat → List Nat → List Nat
  | _, [] => []
  | i, b :: rest => ((b % 256) ^^^ (ks i % 256)) :: ctrXorFrom ks (i + 1) rest

/-- CTR-mode body: XOR the keystream into the data. -/
def ctrXor (ks : Nat → Nat) (bs : List Nat) : List Nat := ctrXorFrom ks 0 bs

/-- `encrypt(data, secretKey)`, given the 16 random bytes drawn for the
iv: `createCipheriv('aes-256-ctr', key, iv)` throws (`none`) unless the
key is exactly 32 bytes (and the iv 16, which `randomBytes(16)` always
satisfies); otherwise the JSON text is XORed with the keystream and both
iv and ciphertext are base64-rendered. -/
def encrypt (ks : List Nat → List Nat → Nat → Nat) (data : Json)
    (secretKey iv : List Nat) : Option EncResult :=
  if secretKey.length = 32 ∧ iv.length = 16 then
    some { iv := String.mk (b64Chars iv),
           encryptedData :=
             String.mk (b64Chars (ctrXor (ks secretKey iv) (utf8Encode (stringify data)))) }
  else none

/-- `decrypt(result, secretKey)`: base64-decode iv and ciphertext (Buffer
decoding never throws), then `createDecipheriv` throws (`none`) unless the
key is 32 bytes and the decoded iv 16 bytes; otherwise XOR the keystream
back and `JSON.parse` the text (a parse failure propagates as `none`). -/
def decrypt (ks : List Nat → List Nat → Nat → Nat) (result : EncResult)
    (secretKey : List Nat) : Option Json :=
  let ivB := b64Decode result.iv.data
  let ctB := b64Decode result.encryptedData.data
  if secretKey.length = 32 ∧ ivB.length = 16 then
    match utf8Decode (ctrXor (ks secretKey ivB) ctB) with
    | some txt => parseJson txt
    | none => none
  else none

/-! ## Theorems -/

/-! ### Digit rendering -/

theorem digitVal_digitChar : ∀ d, d < 36 → digitVal (digitChar d) = d := by decide

theorem baseVal_append_digit (b : Nat) (cs : List Char) (c : Char) :
    baseVal b (cs ++ [c]) = b * baseVal b cs + digitVal c := by
  simp [baseVal, List.foldl_append]

theorem baseVal_toBaseChars {b : Nat} (hb2 : 2 ≤ b) (hb : b ≤ 36) :
    ∀ fuel n, n < fuel → baseVal b (toBaseChars b fuel n) = n := by
  intro fuel
  induction fuel with
  | zero => intro n hn; omega
  | succ f ih =>
    intro n hn
    rw [toBaseChars]
    by_cases h : n < b
    · simp only [if_pos h, baseVal, List.foldl_cons, List.foldl_nil]
      rw [digitVal_digitChar n (by omega)]
      omega
    · rw [if_neg h, baseVal_append_digit,
        ih (n / b) (by
          have h1 : 0 < n := by omega
          have := Nat.div_lt_self h1 (by omega : 1 < b)
          omega),
        digitVal_digitChar (n % b) (by have := Nat.mod_lt n (by omega : 0 < b); omega)]
      exact Nat.div_add_mod n b

theorem baseVal_toBase36 (n : Nat) : baseVal 36 (toBase36 n).data = n :=
  baseVal_toBaseChars (by norm_num) (by norm_num) (n + 1) n (Nat.lt_succ_self n)

theorem toBase36_inj {m n : Nat} (h : toBase36 m = toBase36 n) : m = n := by
  have := congrArg (fun s => baseVal 36 (String.data s)) h
  simpa [baseVal_toBase36] using this

/-! ### The unique-timestamp accessor -/

theorem getUniqueTime_gt (time s : Nat) : s < getUniqueTime time s := by
  simp only [getUniqueTime]
  split <;> split <;> omega

theorem runUniqueOuts_mem_gt (nows : List Nat) :
    ∀ s x, x ∈ runUniqueOuts nows s → s < x := by
  induction nows with
  | nil => intro s x hx; simp [runUniqueOuts] at hx
  | cons now rest ih =>
    intro s x hx
    simp only [runUniqueOuts, List.mem_cons] at hx
    rcases hx with rfl | hx
    · exact getUniqueTime_gt now s
    · exact Nat.lt_trans (getUniqueTime_gt now s) (ih _ x hx)

/-- Claim C1: every value returned by the unique-timestamp accessor is
strictly greater than every previously returned value (for any sequence of
wall-clock readings, from any starting state — in particular the initial
`lastTime = 0`), and two immediately consecutive `genUID()` calls with the
same prefix and suffix never produce equal output. -/
theorem uniqueTime_strict_mono_and_genUID_distinct :
    (∀ (nows : List Nat) (s0 : Nat), (runUniqueOuts nows s0).Pairwise (· < ·)) ∧
    (∀ (macS pidS pre suf : String) (s now1 now2 : Nat),
      genUID macS pidS pre suf (getUniqueTime now1 s) ≠
        genUID macS pidS pre suf (getUniqueTime now2 (getUniqueTime now1 s))) := by
  constructor
  · intro nows
    induction nows with
    | nil => intro s0; simp [runUniqueOuts]
    | cons now rest ih =>
      intro s0
      simp only [runUniqueOuts, List.pairwise_cons]
      exact ⟨fun x hx => runUniqueOuts_mem_gt rest _ x hx, ih _⟩
  · intro macS pidS pre suf s now1 now2 he
    have hne : getUniqueTime now1 s ≠ getUniqueTime now2 (getUniqueTime now1 s) :=
      Nat.ne_of_lt (getUniqueTime_gt now2 (getUniqueTime now1 s))
    apply hne
    have hd := congrArg String.data he
    simp only [genUID, String.data_append, List.append_right_inj, List.append_left_inj] at hd
    have := congrArg (baseVal 36) hd
    simpa [baseVal_toBase36] using this

/-- Claim C2 (counterexample): on the very first call, with `lastTime = 0`
and a clock reading of 5, the code returns 6, not the 5 the claimed
algorithm produces. -/
theorem getUniqueTime_first_call_cex : getUniqueTime 5 0 ≠ specGetUniqueTime 5 0 := by decide

/-- Claim C2 (amended): when `lastTime ≠ 0` the accessor behaves exactly as
claimed (`now > lastTime` sets `lastTime = now`, otherwise `lastTime + 1`,
returning the update); but when `lastTime = 0` (the very first call) the
`lastTime || time` substitution makes it return `now + 1`. -/
theorem getUniqueTime_characterization (time last0 : Nat) :
    getUniqueTime time last0 =
      if last0 = 0 then time + 1 else specGetUniqueTime time last0 := by
  simp only [getUniqueTime, specGetUniqueTime]
  split <;> split <;> omega

/-! ### The interface identity -/

theorem findIfaceMac_eq_find? (iface : List String) :
    findIfaceMac iface = iface.find? (fun m => decide (m ≠ "" ∧ m ≠ allZeroMac)) := by
  induction iface with
  | nil => rfl
  | cons m rest ih =>
    by_cases h : m ≠ "" ∧ m ≠ allZeroMac
    · simp [findIfaceMac, List.find?, h]
    · simp [findIfaceMac, List.find?, h, ih]

theorem findMac_eq_find? (ifs : List (List String)) :
    findMac ifs = (ifs.flatten).find? (fun m => decide (m ≠ "" ∧ m ≠ allZeroMac)) := by
  induction ifs with
  | nil => rfl
  | cons iface rest ih =>
    simp only [findMac, List.flatten_cons, List.find?_append, findIfaceMac_eq_find?, ih]
    cases iface.find? (fun m => decide (m ≠ "" ∧ m ≠ allZeroMac)) <;> rfl

/-- Claim C3 (counterexample): for the interface table containing the
single hardware address `"00:00:00:00:00:0a"`, the code renders `"0"` (it
strips the hex letter `a` along with the separators and parses base-10),
while the claimed derivation (keep hex digits, parse the remainder) gives
`"a"`. -/
theorem macOfInterfaces_cex :
    macOfInterfaces [["00:00:00:00:00:0a"]] ≠ specMacOfInterfaces [["00:00:00:00:00:0a"]] := by
  decide

/-- Claim C3 (amended): the interface identity equals: scan the interfaces
in enumeration order and take the first non-empty hardware address not
equal to the all-zero address; delete every non-decimal-digit character
(the regex `/\:|\D+/gi` removes hex letters too); parse the remaining
decimal digits as a base-10 integer (`NaN`, rendered `"NaN"`, when no
digit remains) and render it in base-36; empty string when no address
qualifies. -/
theorem macOfInterfaces_characterization (ifs : List (List String)) :
    macOfInterfaces ifs =
      match (ifs.flatten).find? (fun m => decide (m ≠ "" ∧ m ≠ allZeroMac)) with
      | none => ""
      | some m =>
        match m.data.filter Char.isDigit with
        | [] => "NaN"
        | ds => toBase36 (baseVal 10 ds) := by
  rw [macOfInterfaces, findMac_eq_find?]
  cases h : (ifs.flatten).find? (fun m => decide (m ≠ "" ∧ m ≠ allZeroMac)) with
  | none => rfl
  | some m =>
    simp only [jsParseIntDigits, stripNonDigits]
    cases m.data.filter Char.isDigit <;> rfl

/-! ### Namespaced auto-increment IDs -/

theorem lookup_update (ns : String) (v : Nat) :
    ∀ st : AutoState, st.lookup ns ≠ none →
      (st.map (fun p => if p.1 = ns then (p.1, v) else p)).lookup ns = some v := by
  intro st
  induction st with
  | nil => intro h; simp [List.lookup] at h
  | cons p rest ih =>
    obtain ⟨k, w⟩ := p
    intro h
    by_cases hp : k = ns
    · have hfp : (if (k, w).1 = ns then ((k, w).1, v) else (k, w)) = (k, v) := if_pos hp
      rw [List.map_cons, hfp, List.lookup]
      rw [show (ns == k) = true from by simpa [beq_iff_eq] using hp.symm]
    · have hfp : (if (k, w).1 = ns then ((k, w).1, v) else (k, w)) = (k, w) := if_neg hp
      have hne : (ns == k) = false := by
        simp only [beq_eq_false_iff_ne, ne_eq]
        exact fun he => hp he.symm
      rw [List.lookup, hne] at h
      rw [List.map_cons, hfp, List.lookup, hne]
      exact ih h

theorem lookup_append_single (ns : String) (v : Nat) :
    ∀ st : AutoState, st.lookup ns = none → (st ++ [(ns, v)]).lookup ns = some v := by
  intro st
  induction st with
  | nil =>
    intro _
    rw [List.nil_append, List.lookup, beq_self_eq_true]
  | cons p rest ih =>
    obtain ⟨k, w⟩ := p
    intro h
    by_cases hp : (ns == k) = true
    · rw [List.lookup, hp] at h
      cases h
    · have hne : (ns == k) = false := by simpa using hp
      rw [List.lookup, hne] at h
      rw [List.cons_append, List.lookup, hne]
      exact ih h

theorem runAutoID_some (ns : String) :
    ∀ (k n : Nat) (st : AutoState), st.lookup ns = some n →
      runAutoID ns k st = List.range' n k := by
  intro k
  induction k with
  | zero => intro n st _; rfl
  | succ k ih =>
    intro n st h
    simp only [runAutoID, genAutoID, h]
    rw [ih (n + 1) _ (lookup_update ns (n + 1) st (by rw [h]; exact fun hc => by cases hc))]
    rfl

theorem lookup_filter_ne (ns : String) :
    ∀ st : AutoState, (st.filter (fun p => p.1 ≠ ns)).lookup ns = none := by
  intro st
  induction st with
  | nil => rfl
  | cons p rest ih =>
    obtain ⟨k, w⟩ := p
    rw [List.filter_cons]
    by_cases hp : k = ns
    · rw [if_neg (by simpa using hp)]
      exact ih
    · rw [if_pos (by simpa using hp), List.lookup,
        show (ns == k) = false from by
          simp only [beq_eq_false_iff_ne, ne_eq]
          exact fun he => hp he.symm]
      exact ih

/-- Claim C4: for every namespace, successive `genAutoID` calls return
0, 1, 2, … (`k` calls from a state with no counter for the namespace
return exactly `0 … k-1`); after `resetAutoID` the next call returns 0
again; and `resetAutoID` on a namespace with no counter leaves the
registry unchanged (no error). -/
theorem genAutoID_spec :
    (∀ (ns : String) (st : AutoState) (k : Nat), st.lookup ns = none →
      runAutoID ns k st = List.range k) ∧
    (∀ (ns : String) (st : AutoState), (genAutoID ns (resetAutoID ns st)).1 = 0) ∧
    (∀ (ns : String) (st : AutoState), st.lookup ns = none → resetAutoID ns st = st) := by
  refine ⟨?_, ?_, ?_⟩
  · intro ns st k h
    cases k with
    | zero => rfl
    | succ k =>
      simp only [runAutoID, genAutoID, h]
      rw [runAutoID_some ns k 1 _ (lookup_append_single ns 1 st h)]
      rw [List.range_eq_range']
      rfl
  · intro ns st
    simp only [genAutoID, resetAutoID, lookup_filter_ne]
  · intro ns st
    induction st with
    | nil => intro _; rfl
    | cons p rest ih =>
      obtain ⟨k, w⟩ := p
      intro h
      by_cases hp : (ns == k) = true
      · rw [List.lookup, hp] at h
        cases h
      · have hne : (ns == k) = false := by simpa using hp
        rw [List.lookup, hne] at h
        have hp1 : k ≠ ns := by
          intro he
          rw [he] at hp
          simp at hp
        simp only [resetAutoID] at ih ⊢
        rw [List.filter_cons, if_pos (by simpa using hp1), ih h]

/-- Witness for C4 at the namespace `"ns"` and the empty registry: three
calls yield `[0, 1, 2]`, a call right after a reset yields 0, and a reset
with no counter present is the identity. -/
theorem genAutoID_spec_witness :
    runAutoID "ns" 3 [] = List.range 3 ∧
    (genAutoID "ns" (resetAutoID "ns" [])).1 = 0 ∧
    resetAutoID "ns" ([("other", 5)] : AutoState) = [("other", 5)] :=
  ⟨genAutoID_spec.1 "ns" [] 3 rfl, genAutoID_spec.2.1 "ns" [],
    genAutoID_spec.2.2 "ns" [("other", 5)] rfl⟩

/-! ### trimObject -/

theorem trimObject_cons (k : String) (v : JSVal) (rest : List (String × JSVal)) :
    trimObject ((k, v) :: rest) =
      if isValid v then (k, trimInner v) :: trimObject rest else trimObject rest := by
  cases v <;> simp [trimObject, trimInner]

theorem trimObject_eq (fields : List (String × JSVal)) :
    trimObject fields =
      (fields.filter (fun kv => isValid kv.2)).map (fun kv => (kv.1, trimInner kv.2)) := by
  induction fields with
  | nil => simp [trimObject]
  | cons kv rest ih =>
    obtain ⟨k, v⟩ := kv
    rw [trimObject_cons, List.filter_cons]
    by_cases hv : isValid v
    · rw [if_pos hv, if_pos (by simpa using hv), List.map_cons, ih]
    · rw [if_neg hv, if_neg (by simpa using hv), ih]

theorem isValid_eq_not_claimInvalid (v : JSVal) : isValid v = !claimInvalid v := by
  cases v <;> rfl

/-- Claim C8: `trimObject` returns the object whose fields are exactly the
input fields with a valid value (not `null`/`undefined`/`NaN`/empty or
whitespace-only string), in order; it recurses into plain-object values
and copies all other values — arrays included — unchanged; `false`, `{}`
and `[]` are valid and hence preserved.  (The model is purely functional,
so building the result object cannot mutate the input.) -/
theorem trimObject_spec :
    (∀ fields : List (String × JSVal),
      trimObject fields =
        (fields.filter (fun kv => isValid kv.2)).map (fun kv => (kv.1, trimInner kv.2))) ∧
    (∀ fields : List (String × JSVal),
      (trimObject fields).map Prod.fst =
        (fields.filter (fun kv => !claimInvalid kv.2)).map Prod.fst) ∧
    (∀ f2 : List (String × JSVal), trimInner (JSVal.obj f2) = JSVal.obj (trimObject f2)) ∧
    (∀ elems : List JSVal, trimInner (JSVal.arr elems) = JSVal.arr elems) ∧
    isValid (JSVal.bool false) = true ∧ isValid (JSVal.obj []) = true ∧
    isValid (JSVal.arr []) = true := by
  refine ⟨trimObject_eq, ?_, fun _ => rfl, fun _ => rfl, rfl, rfl, rfl⟩
  intro fields
  rw [trimObject_eq, List.map_map]
  have : fields.filter (fun kv => isValid kv.2) =
      fields.filter (fun kv => !claimInvalid kv.2) :=
    List.filter_congr (fun kv _ => by rw [isValid_eq_not_claimInvalid])
  rw [this]
  rfl

/-! ### iterate -/

theorem jsIndex_natCast {α : Type} (l : List α) (i : Nat) :
    jsIndex l (i : Int) = l.get? i := by
  simp [jsIndex]

theorem filterMap_get?_range {α : Type} :
    ∀ (n : Nat) (l : List α), (List.range n).filterMap l.get? = l.take n := by
  intro n
  induction n with
  | zero => intro l; simp
  | succ n ih =>
    intro l
    rw [List.range_succ, List.filterMap_append, ih, List.take_succ]
    congr 1
    rw [← List.get?_eq_getElem?]
    cases h : l.get? n with
    | none =>
      have hle := List.get?_eq_none.mp h
      simp [List.filterMap_cons, h, hle]
    | some a =>
      have h2 : l[n]? = some a := by rwa [List.get?_eq_getElem?] at h
      simp [List.filterMap_cons, h, h2]

/-- Claim C10: at the public interface `iterate` is not total on empty
inputs — on the empty plain object it throws a TypeError when the first
result is requested (destructuring `entries[-1]`, which is `undefined`),
modelled as `none`; on the empty array it yields nothing and terminates
with the out-of-range final pair `{ key: -1, value: undefined }`. -/
theorem iterate_empty_behaviour :
    (∀ α : Type, iterateObj ([] : List (String × α)) = none) ∧
    (∀ α : Type, iterateArr ([] : List α) = ([], (-1, none))) :=
  ⟨fun _ => rfl, fun _ => rfl⟩

/-- Claim C9 (counterexample): consuming `iterate([10, 20])` through the
standard iteration protocol (which takes only the yielded values, not the
`done: true` return value) does not produce the pair `{key: 1, value: 20}`:
the last pair of the input is missing from the protocol-visible
sequence. -/
theorem iterate_protocol_misses_last_cex :
    ((1 : Int), some 20) ∉ (iterateArr [10, 20]).1 := by decide

/-- Claim C9 (amended): for a non-empty array or plain object, the yielded
(protocol-visible) sequence contains every key/value pair of the input
except the last, in enumeration order; the last pair is delivered as the
generator's return value (the `done: true` result, which protocol
consumers drop), so yields plus return together cover all pairs exactly
once, in order. -/
theorem iterate_pairs_characterization :
    (∀ (α : Type) (l : List α), l ≠ [] →
      (iterateArr l).1 ++ [(iterateArr l).2] =
        (List.range l.length).map (fun (i : Nat) => ((i : Int), l.get? i))) ∧
    (∀ (α : Type) (l : List (String × α)), l ≠ [] →
      ∃ last, iterateObj l = some (l.dropLast, last) ∧ l.dropLast ++ [last] = l) := by
  constructor
  · intro α l hl
    obtain ⟨n, hn⟩ : ∃ n, l.length = n + 1 := by
      cases l with
      | nil => exact absurd rfl hl
      | cons a t => exact ⟨t.length, rfl⟩
    have hcast : ((n + 1 : Nat) : Int) - 1 = (n : Int) := by push_cast; ring
    simp only [iterateArr, hn, Nat.add_sub_cancel, hcast, jsIndex_natCast]
    rw [List.range_succ, List.map_append]
    simp [jsIndex_natCast]
  · intro α l hl
    obtain ⟨n, hn⟩ : ∃ n, l.length = n + 1 := by
      cases l with
      | nil => exact absurd rfl hl
      | cons a t => exact ⟨t.length, rfl⟩
    have hcast : ((n + 1 : Nat) : Int) - 1 = (n : Int) := by push_cast; ring
    have hget : l.get? n = some (l.getLast hl) := by
      rw [List.get?_eq_getElem?, ← show l.length - 1 = n from by omega,
        ← List.getLast?_eq_getElem?, List.getLast?_eq_getLast l hl]
    refine ⟨l.getLast hl, ?_, List.dropLast_append_getLast hl⟩
    simp only [iterateObj, hn, Nat.add_sub_cancel, hcast, jsIndex_natCast, hget,
      filterMap_get?_range]
    rw [List.dropLast_eq_take, hn, Nat.add_sub_cancel]

/-! ### JSON printer / reader round trip -/

theorem string_mk_data (s : String) : String.mk s.data = s := rfl

theorem skipWs_cons {c : Char} (h : jsonWs c = false) (r : List Char) :
    skipWs (c :: r) = c :: r := by
  simp [skipWs, List.dropWhile_cons, h]

theorem hexVal?_digitChar : ∀ d, d < 16 → hexVal? (digitChar d) = some d := by decide

theorem digit_facts : ∀ d, d < 10 →
    ((digitChar d).isDigit = true ∧ jsonWs (digitChar d) = false ∧
      digitChar d ≠ '"' ∧ digitChar d ≠ '[' ∧ digitChar d ≠ lbrace ∧
      digitChar d ≠ '-' ∧ digitChar d ≠ ']' ∧ digitChar d ≠ rbrace ∧
      digitChar d ≠ ',') := by
  decide

theorem toBaseChars10_mem :
    ∀ fuel n c, c ∈ toBaseChars 10 fuel n → ∃ d, d < 10 ∧ c = digitChar d := by
  intro fuel
  induction fuel with
  | zero => intro n c hc; simp [toBaseChars] at hc
  | succ f ih =>
    intro n c hc
    rw [toBaseChars] at hc
    by_cases h : n < 10
    · rw [if_pos h] at hc
      simp only [List.mem_singleton] at hc
      exact ⟨n, h, hc⟩
    · rw [if_neg h] at hc
      rcases List.mem_append.mp hc with h1 | h2
      · exact ih _ c h1
      · simp only [List.mem_singleton] at h2
        exact ⟨n % 10, Nat.mod_lt _ (by omega), h2⟩

theorem toBaseChars_ne_nil (b : Nat) : ∀ fuel n, 0 < fuel → toBaseChars b fuel n ≠ [] := by
  intro fuel n h
  cases fuel with
  | zero => omega
  | succ f =>
    rw [toBaseChars]
    by_cases hn : n < b
    · simp [hn]
    · simp [hn]

theorem baseVal_decChars (n : Nat) : baseVal 10 (decChars n) = n :=
  baseVal_toBaseChars (by norm_num) (by norm_num) (n + 1) n (Nat.lt_succ_self n)

theorem decChars_head (n : Nat) : ∃ d ds, d < 10 ∧ decChars n = digitChar d :: ds := by
  have hne : toBaseChars 10 (n + 1) n ≠ [] := toBaseChars_ne_nil 10 (n + 1) n (by omega)
  cases h : toBaseChars 10 (n + 1) n with
  | nil => exact absurd h hne
  | cons c cs =>
    obtain ⟨d, hd, rfl⟩ :=
      toBaseChars10_mem (n + 1) n c (by rw [h]; exact List.mem_cons_self _ _)
    exact ⟨d, cs, hd, by rw [decChars, h]⟩

theorem takeWhile_digits :
    ∀ (ds rest : List Char), (∀ c ∈ ds, c.isDigit = true) →
      (∀ c, rest.head? = some c → c.isDigit = false) →
      (ds ++ rest).takeWhile Char.isDigit = ds ∧
        (ds ++ rest).dropWhile Char.isDigit = rest := by
  intro ds
  induction ds with
  | nil =>
    intro rest _ hrest
    cases rest with
    | nil => exact ⟨rfl, rfl⟩
    | cons r rs =>
      have hr := hrest r rfl
      exact ⟨by simp [List.takeWhile_cons, hr], by simp [List.dropWhile_cons, hr]⟩
  | cons d ds ih =>
    intro rest hds hrest
    have hd : d.isDigit = true := hds d (by simp)
    obtain ⟨h1, h2⟩ := ih rest (fun c hc => hds c (by simp [hc])) hrest
    exact ⟨by simp [List.takeWhile_cons, hd, h1], by simp [List.dropWhile_cons, hd, h2]⟩

theorem parseNat_decChars (n : Nat) (rest : List Char)
    (hrest : ∀ c, rest.head? = some c → c.isDigit = false) :
    parseNat (decChars n ++ rest) = some (n, rest) := by
  have hall : ∀ c ∈ decChars n, c.isDigit = true := by
    intro c hc
    obtain ⟨d, hd, rfl⟩ := toBaseChars10_mem (n + 1) n c hc
    exact (digit_facts d hd).1
  obtain ⟨ht, hdrop⟩ := takeWhile_digits (decChars n) rest hall hrest
  have hne : decChars n ≠ [] := toBaseChars_ne_nil 10 (n + 1) n (by omega)
  simp only [parseNat, ht, hdrop]
  rw [if_neg (by simpa [List.isEmpty_iff] using hne), baseVal_decChars]

theorem parseStringRest_escape :
    ∀ (cs rest : List Char), parseStringRest (escapeList cs ++ '"' :: rest) = some (cs, rest) := by
  intro cs
  induction cs with
  | nil =>
    intro rest
    rw [show escapeList [] = [] from rfl, List.nil_append, parseStringRest.eq_def]
    simp
  | cons c cs ih =>
    intro rest
    rw [show escapeList (c :: cs) = escapeChar c ++ escapeList cs from by simp [escapeList],
      List.append_assoc]
    by_cases h1 : c = '"'
    · subst h1
      rw [show escapeChar '"' = ['\\', '"'] from rfl]
      rw [List.cons_append, List.cons_append, List.nil_append, parseStringRest.eq_def]
      simp [unescapeChar, ih]
    · by_cases h2 : c = '\\'
      · subst h2
        rw [show escapeChar '\\' = ['\\', '\\'] from rfl]
        rw [List.cons_append, List.cons_append, List.nil_append, parseStringRest.eq_def]
        simp [unescapeChar, ih]
      · by_cases h3 : c.toNat = 8
        · have hc : Char.ofNat 8 = c := by rw [← h3, Char.ofNat_toNat]
          rw [show escapeChar c = ['\\', 'b'] from by simp [escapeChar, h1, h2, h3]]
          rw [List.cons_append, List.cons_append, List.nil_append, parseStringRest.eq_def]
          simp [unescapeChar, ih]
          exact hc
        · by_cases h4 : c.toNat = 9
          · have hc : Char.ofNat 9 = c := by rw [← h4, Char.ofNat_toNat]
            rw [show escapeChar c = ['\\', 't'] from by simp [escapeChar, h1, h2, h3, h4]]
            rw [List.cons_append, List.cons_append, List.nil_append, parseStringRest.eq_def]
            simp [unescapeChar, ih]
            exact hc
          · by_cases h5 : c.toNat = 10
            · have hc : Char.ofNat 10 = c := by rw [← h5, Char.ofNat_toNat]
              rw [show escapeChar c = ['\\', 'n'] from by simp [escapeChar, h1, h2, h3, h4, h5]]
              rw [List.cons_append, List.cons_append, List.nil_append, parseStringRest.eq_def]
              simp [unescapeChar, ih]
              exact hc
            · by_cases h6 : c.toNat = 12
              · have hc : Char.ofNat 12 = c := by rw [← h6, Char.ofNat_toNat]
                rw [show escapeChar c = ['\\', 'f'] from by
                  simp [escapeChar, h1, h2, h3, h4, h5, h6]]
                rw [List.cons_append, List.cons_append, List.nil_append, parseStringRest.eq_def]
                simp [unescapeChar, ih]
                exact hc
              · by_cases h7 : c.toNat = 13
                · have hc : Char.ofNat 13 = c := by rw [← h7, Char.ofNat_toNat]
                  rw [show escapeChar c = ['\\', 'r'] from by
                    simp [escapeChar, h1, h2, h3, h4, h5, h6, h7]]
                  rw [List.cons_append, List.cons_append, List.nil_append, parseStringRest.eq_def]
                  simp [unescapeChar, ih]
                  exact hc
                · by_cases h8 : c.toNat < 32
                  · have hdiv : c.toNat / 16 < 16 := by omega
                    have hmod : c.toNat % 16 < 16 := by omega
                    have hc : Char.ofNat (16 * (c.toNat / 16) + c.toNat % 16) = c := by
                      rw [Nat.div_add_mod]
                      exact Char.ofNat_toNat c
                    rw [show escapeChar c =
                        ['\\', 'u', '0', '0', digitChar (c.toNat / 16), digitChar (c.toNat % 16)] from by
                      simp [escapeChar, h1, h2, h3, h4, h5, h6, h7, h8]]
                    simp only [List.cons_append, List.nil_append]
                    rw [parseStringRest.eq_def]
                    simp [show hexVal? '0' = some 0 from rfl, hexVal?_digitChar _ hdiv,
                      hexVal?_digitChar _ hmod, ih, hc]
                  · rw [show escapeChar c = [c] from by
                      simp [escapeChar, h1, h2, h3, h4, h5, h6, h7, h8]]
                    simp only [List.cons_append, List.nil_append]
                    rw [parseStringRest.eq_def]
                    simp [h1, h2, ih]

theorem parseValue_null (f : Nat) (r : List Char) :
    parseValue (f + 1) ('n' :: 'u' :: 'l' :: 'l' :: r) = some (.null, r) := rfl

theorem parseValue_true (f : Nat) (r : List Char) :
    parseValue (f + 1) ('t' :: 'r' :: 'u' :: 'e' :: r) = some (.bool true, r) := rfl

theorem parseValue_false (f : Nat) (r : List Char) :
    parseValue (f + 1) ('f' :: 'a' :: 'l' :: 's' :: 'e' :: r) = some (.bool false, r) := rfl

theorem parseValue_quote (f : Nat) (r : List Char) :
    parseValue (f + 1) ('"' :: r) =
      match parseStringRest r with
      | some (ds, r2) => some (.str (String.mk ds), r2)
      | none => none := rfl

theorem parseValue_lbracket (f : Nat) (r : List Char) :
    parseValue (f + 1) ('[' :: r) =
      match skipWs r with
      | [] => none
      | c2 :: r2 =>
        if c2 = ']' then some (.arr [], r2)
        else
          match parseItems f (c2 :: r2) with
          | some (es, r3) => some (.arr es, r3)
          | none => none := rfl

theorem parseValue_lbrace (f : Nat) (r : List Char) :
    parseValue (f + 1) (lbrace :: r) =
      match skipWs r with
      | [] => none
      | c2 :: r2 =>
        if c2 = rbrace then some (.obj [], r2)
        else
          match parseFields f (c2 :: r2) with
          | some (fs, r3) => some (.obj fs, r3)
          | none => none := rfl

theorem parseValue_neg (f : Nat) (r : List Char) :
    parseValue (f + 1) ('-' :: r) = parseNumber ('-' :: r) := rfl

theorem parseValue_digit (f : Nat) (r : List Char) :
    ∀ d, d < 10 → parseValue (f + 1) (digitChar d :: r) = parseNumber (digitChar d :: r) := by
  intro d hd
  interval_cases d <;> rfl

theorem parseNumber_neg (cs : List Char) :
    parseNumber ('-' :: cs) =
      match parseNat cs with
      | some (n, rest) => some (.num (-(n : Int)), rest)
      | none => none := rfl

theorem parseNumber_digit (r : List Char) :
    ∀ d, d < 10 → parseNumber (digitChar d :: r) =
      match parseNat (digitChar d :: r) with
      | some (n, rest) => some (.num (n : Int), rest)
      | none => none := by
  intro d hd
  interval_cases d <;> rfl

theorem parseItems_succ (f : Nat) (cs : List Char) :
    parseItems (f + 1) cs =
      match parseValue f cs with
      | none => none
      | some (v, r) =>
        match skipWs r with
        | [] => none
        | c :: r2 =>
          if c = ',' then
            match parseItems f r2 with
            | some (es, r3) => some (v :: es, r3)
            | none => none
          else if c = ']' then some ([v], r2)
          else none := rfl

theorem parseFields_succ (f : Nat) (cs : List Char) :
    parseFields (f + 1) cs =
      match skipWs cs with
      | [] => none
      | c :: r =>
        if c = '"' then
          match parseStringRest r with
          | none => none
          | some (kds, r2) =>
            match skipWs r2 with
            | [] => none
            | c2 :: r3 =>
              if c2 = ':' then
                match parseValue f r3 with
                | none => none
                | some (v, r4) =>
                  match skipWs r4 with
                  | [] => none
                  | c3 :: r5 =>
                    if c3 = ',' then
                      match parseFields f r5 with
                      | some (fs, r6) => some ((String.mk kds, v) :: fs, r6)
                      | none => none
                    else if c3 = rbrace then some ([(String.mk kds, v)], r5)
                    else none
              else none
        else none := rfl

theorem printChars_head (v : Json) :
    ∃ c cs, printChars v = c :: cs ∧ jsonWs c = false ∧ c ≠ ']' := by
  cases v with
  | null => exact ⟨'n', ['u', 'l', 'l'], by simp [printChars], by decide, by decide⟩
  | bool b =>
    cases b with
    | true => exact ⟨'t', ['r', 'u', 'e'], by simp [printChars], by decide, by decide⟩
    | false => exact ⟨'f', ['a', 'l', 's', 'e'], by simp [printChars], by decide, by decide⟩
  | num n =>
    by_cases h : n < 0
    · exact ⟨'-', decChars n.natAbs, by simp [printChars, intChars, h], by decide, by decide⟩
    · obtain ⟨d, ds, hd, hdec⟩ := decChars_head n.natAbs
      refine ⟨digitChar d, ds, by simp [printChars, intChars, h, hdec], ?_, ?_⟩
      · exact (digit_facts d hd).2.1
      · exact (digit_facts d hd).2.2.2.2.2.2.1
  | str s =>
    exact ⟨'"', escapeList s.data ++ ['"'], by simp [printChars, strChars], by decide, by decide⟩
  | arr es => exact ⟨'[', printItems es ++ [']'], by simp [printChars], by decide, by decide⟩
  | obj fs => exact ⟨lbrace, printFields fs ++ [rbrace], by simp [printChars], by decide, by decide⟩

theorem needV_pos (v : Json) : 1 ≤ needV v := by
  cases v <;> simp [needV]

theorem needI_pos (l : List Json) : 1 ≤ needI l := by
  cases l <;> simp [needI]

theorem needF_pos (fs : List (String × Json)) : 1 ≤ needF fs := by
  cases fs with
  | nil => simp [needF]
  | cons kv rest => obtain ⟨k, v⟩ := kv; simp [needF]

/-- The reader inverts the printer: parsing a printed value (followed by
any residue that does not continue a number) succeeds, consumes exactly
the printed text, and returns the value — for any fuel at least
`needV`/`needF`/`needI`. -/
theorem parse_printChars :
    (∀ v : Json, ∀ fuel rest, needV v ≤ fuel →
        (∀ c, rest.head? = some c → c.isDigit = false) →
        parseValue fuel (printChars v ++ rest) = some (v, rest)) ∧
    (∀ fs : List (String × Json), fs ≠ [] → ∀ fuel rest, needF fs ≤ fuel →
        parseFields fuel (printFields fs ++ rbrace :: rest) = some (fs, rest)) ∧
    (∀ l : List Json, l ≠ [] → ∀ fuel rest, needI l ≤ fuel →
        parseItems fuel (printItems l ++ ']' :: rest) = some (l, rest)) := by
  refine printChars.mutual_induct
    (fun v => ∀ fuel rest, needV v ≤ fuel →
        (∀ c, rest.head? = some c → c.isDigit = false) →
        parseValue fuel (printChars v ++ rest) = some (v, rest))
    (fun fs => fs ≠ [] → ∀ fuel rest, needF fs ≤ fuel →
        parseFields fuel (printFields fs ++ rbrace :: rest) = some (fs, rest))
    (fun l => l ≠ [] → ∀ fuel rest, needI l ≤ fuel →
        parseItems fuel (printItems l ++ ']' :: rest) = some (l, rest))
    ?_ ?_ ?_ ?_ ?_ ?_ ?_ ?_ ?_ ?_ ?_ ?_ ?_
  -- null
  · intro fuel rest hfuel _
    obtain ⟨f, rfl⟩ : ∃ f, fuel = f + 1 := ⟨fuel - 1, by have := needV_pos Json.null; omega⟩
    rw [show printChars Json.null ++ rest = 'n' :: 'u' :: 'l' :: 'l' :: rest from by
      simp [printChars]]
    exact parseValue_null f rest
  -- bool true
  · intro fuel rest hfuel _
    obtain ⟨f, rfl⟩ : ∃ f, fuel = f + 1 := ⟨fuel - 1, by have := needV_pos (Json.bool true); omega⟩
    rw [show printChars (Json.bool true) ++ rest = 't' :: 'r' :: 'u' :: 'e' :: rest from by
      simp [printChars]]
    exact parseValue_true f rest
  -- bool false
  · intro fuel rest hfuel _
    obtain ⟨f, rfl⟩ : ∃ f, fuel = f + 1 :=
      ⟨fuel - 1, by have := needV_pos (Json.bool false); omega⟩
    rw [show printChars (Json.bool false) ++ rest = 'f' :: 'a' :: 'l' :: 's' :: 'e' :: rest from by
      simp [printChars]]
    exact parseValue_false f rest
  -- num
  · intro n fuel rest hfuel hrest
    obtain ⟨f, rfl⟩ : ∃ f, fuel = f + 1 := ⟨fuel - 1, by have := needV_pos (Json.num n); omega⟩
    by_cases hneg : n < 0
    · rw [show printChars (Json.num n) ++ rest = '-' :: (decChars n.natAbs ++ rest) from by
        simp [printChars, intChars, hneg]]
      rw [parseValue_neg, parseNumber_neg, parseNat_decChars n.natAbs rest hrest]
      show some (Json.num (-((n.natAbs : Nat) : Int)), rest) = some (Json.num n, rest)
      rw [show -((n.natAbs : Nat) : Int) = n from by omega]
    · obtain ⟨d, ds, hd, hdec⟩ := decChars_head n.natAbs
      rw [show printChars (Json.num n) ++ rest = digitChar d :: (ds ++ rest) from by
        simp [printChars, intChars, hneg, hdec]]
      rw [parseValue_digit f (ds ++ rest) d hd, parseNumber_digit (ds ++ rest) d hd]
      rw [show digitChar d :: (ds ++ rest) = decChars n.natAbs ++ rest from by rw [hdec]; rfl]
      rw [parseNat_decChars n.natAbs rest hrest]
      show some (Json.num ((n.natAbs : Nat) : Int), rest) = some (Json.num n, rest)
      rw [show ((n.natAbs : Nat) : Int) = n from by omega]
  -- str
  · intro s fuel rest hfuel _
    obtain ⟨f, rfl⟩ : ∃ f, fuel = f + 1 := ⟨fuel - 1, by have := needV_pos (Json.str s); omega⟩
    rw [show printChars (Json.str s) ++ rest = '"' :: (escapeList s.data ++ '"' :: rest) from by
      simp [printChars, strChars]]
    rw [parseValue_quote, parseStringRest_escape s.data rest]
  -- arr
  · intro es ihI fuel rest hfuel _
    have h1 : 1 + needI es ≤ fuel := by
      have : needV (Json.arr es) = 1 + needI es := by simp [needV]
      omega
    obtain ⟨f, rfl⟩ : ∃ f, fuel = f + 1 := ⟨fuel - 1, by omega⟩
    rw [show printChars (Json.arr es) ++ rest = '[' :: (printItems es ++ ']' :: rest) from by
      simp [printChars]]
    rw [parseValue_lbracket]
    cases es with
    | nil =>
      rw [show printItems ([] : List Json) ++ ']' :: rest = ']' :: rest from by
        simp [printItems]]
      rw [skipWs_cons (by decide)]
      simp
    | cons e es' =>
      obtain ⟨c, cs, hpc, hws, hne⟩ := printChars_head e
      obtain ⟨tl, htl⟩ : ∃ tl, printItems (e :: es') = printChars e ++ tl := by
        cases es' with
        | nil => exact ⟨[], by simp [printItems]⟩
        | cons e2 r2 => exact ⟨',' :: printItems (e2 :: r2), by simp [printItems]⟩
      have hshape : printItems (e :: es') ++ ']' :: rest = c :: (cs ++ tl ++ ']' :: rest) := by
        rw [htl, hpc]
        simp
      rw [hshape, skipWs_cons hws]
      dsimp only []
      rw [if_neg hne]
      rw [show c :: (cs ++ tl ++ ']' :: rest) = printItems (e :: es') ++ ']' :: rest from by
        rw [htl, hpc]; simp]
      rw [ihI (by simp) f rest (by omega)]
  -- obj
  · intro fs ihF fuel rest hfuel _
    have h1 : 1 + needF fs ≤ fuel := by
      have : needV (Json.obj fs) = 1 + needF fs := by simp [needV]
      omega
    obtain ⟨f, rfl⟩ : ∃ f, fuel = f + 1 := ⟨fuel - 1, by omega⟩
    rw [show printChars (Json.obj fs) ++ rest = lbrace :: (printFields fs ++ rbrace :: rest) from by
      simp [printChars]]
    rw [parseValue_lbrace]
    cases fs with
    | nil =>
      rw [show printFields ([] : List (String × Json)) ++ rbrace :: rest = rbrace :: rest from by
        simp [printFields]]
      rw [skipWs_cons (by decide)]
      simp
    | cons kv fs' =>
      obtain ⟨k, v⟩ := kv
      obtain ⟨tl, htl⟩ : ∃ tl, printFields ((k, v) :: fs') = strChars k ++ tl := by
        cases fs' with
        | nil => exact ⟨':' :: printChars v, by simp [printFields]⟩
        | cons f2 r2 =>
          exact ⟨':' :: printChars v ++ ',' :: printFields (f2 :: r2), by
            simp [printFields]⟩
      have hshape : printFields ((k, v) :: fs') ++ rbrace :: rest =
          '"' :: (escapeList k.data ++ ['"'] ++ tl ++ rbrace :: rest) := by
        rw [htl]
        simp [strChars]
      rw [hshape, skipWs_cons (by decide)]
      dsimp only []
      rw [if_neg (by decide)]
      rw [show '"' :: (escapeList k.data ++ ['"'] ++ tl ++ rbrace :: rest) =
          printFields ((k, v) :: fs') ++ rbrace :: rest from by
        rw [htl]
        simp [strChars]]
      rw [ihF (by simp) f rest (by omega)]
  -- fields nil
  · intro h
    exact absurd rfl h
  -- fields single
  · intro k v ihV _ fuel rest hfuel
    have hv : needV v + 1 ≤ fuel := by
      have h1 : needF [(k, v)] = 1 + max (needV v) (needF []) := by simp [needF]
      have h2 : needF ([] : List (String × Json)) = 1 := by simp [needF]
      rw [h2] at h1
      have := Nat.max_le.mp (by omega : max (needV v) 1 ≤ fuel - 1)
      omega
    obtain ⟨f, rfl⟩ : ∃ f, fuel = f + 1 := ⟨fuel - 1, by omega⟩
    rw [show printFields [(k, v)] ++ rbrace :: rest =
        '"' :: (escapeList k.data ++ '"' :: (':' :: (printChars v ++ rbrace :: rest))) from by
      simp [printFields, strChars]]
    rw [parseFields_succ, skipWs_cons (by decide)]
    dsimp only []
    rw [if_pos rfl, parseStringRest_escape]
    dsimp only []
    rw [skipWs_cons (by decide)]
    dsimp only []
    rw [if_pos rfl, ihV f (rbrace :: rest) (by omega) (by intro c hc; cases hc; decide)]
    dsimp only []
    rw [skipWs_cons (by decide)]
    dsimp only []
    rw [if_neg (by decide), if_pos rfl, string_mk_data]
  -- fields cons
  · intro k v f2 rest' ihV ihF _ fuel rest hfuel
    have hkey : needF ((k, v) :: f2 :: rest') = 1 + max (needV v) (needF (f2 :: rest')) := by
      simp [needF]
    have hboth := Nat.max_le.mp (by omega : max (needV v) (needF (f2 :: rest')) ≤ fuel - 1)
    have hpos : 1 ≤ fuel := by omega
    obtain ⟨f, rfl⟩ : ∃ f, fuel = f + 1 := ⟨fuel - 1, by omega⟩
    rw [show printFields ((k, v) :: f2 :: rest') ++ rbrace :: rest =
        '"' :: (escapeList k.data ++ '"' ::
          (':' :: (printChars v ++ ',' :: (printFields (f2 :: rest') ++ rbrace :: rest)))) from by
      simp [printFields, strChars]]
    rw [parseFields_succ, skipWs_cons (by decide)]
    dsimp only []
    rw [if_pos rfl, parseStringRest_escape]
    dsimp only []
    rw [skipWs_cons (by decide)]
    dsimp only []
    rw [if_pos rfl,
      ihV f (',' :: (printFields (f2 :: rest') ++ rbrace :: rest)) (by omega)
        (by intro c hc; cases hc; decide)]
    dsimp only []
    rw [skipWs_cons (by decide)]
    dsimp only []
    rw [if_pos rfl, ihF (by simp) f rest (by omega), string_mk_data]
  -- items nil
  · intro h
    exact absurd rfl h
  -- items single
  · intro e ihV _ fuel rest hfuel
    have hv : needV e + 1 ≤ fuel := by
      have h1 : needI [e] = 1 + max (needV e) (needI []) := by simp [needI]
      have h2 : needI ([] : List Json) = 1 := by simp [needI]
      rw [h2] at h1
      have := Nat.max_le.mp (by omega : max (needV e) 1 ≤ fuel - 1)
      omega
    obtain ⟨f, rfl⟩ : ∃ f, fuel = f + 1 := ⟨fuel - 1, by omega⟩
    rw [show printItems [e] ++ ']' :: rest = printChars e ++ ']' :: rest from by
      simp [printItems]]
    rw [parseItems_succ, ihV f (']' :: rest) (by omega) (by intro c hc; cases hc; decide)]
    dsimp only []
    rw [skipWs_cons (by decide)]
    dsimp only []
    rw [if_neg (by decide), if_pos rfl]
  -- items cons
  · intro e e2 rest' ihV ihI _ fuel rest hfuel
    have hkey : needI (e :: e2 :: rest') = 1 + max (needV e) (needI (e2 :: rest')) := by
      simp [needI]
    have hboth := Nat.max_le.mp (by omega : max (needV e) (needI (e2 :: rest')) ≤ fuel - 1)
    have hpos : 1 ≤ fuel := by omega
    obtain ⟨f, rfl⟩ : ∃ f, fuel = f + 1 := ⟨fuel - 1, by omega⟩
    rw [show printItems (e :: e2 :: rest') ++ ']' :: rest =
        printChars e ++ ',' :: (printItems (e2 :: rest') ++ ']' :: rest) from by
      simp [printItems]]
    rw [parseItems_succ,
      ihV f (',' :: (printItems (e2 :: rest') ++ ']' :: rest)) (by omega)
        (by intro c hc; cases hc; decide)]
    dsimp only []
    rw [skipWs_cons (by decide)]
    dsimp only []
    rw [if_pos rfl, ihI (by simp) f rest (by omega)]

/-- The printed length (plus one) is always enough parser fuel. -/
theorem needV_le_print :
    (∀ v : Json, needV v ≤ (printChars v).length + 1) ∧
    (∀ fs : List (String × Json), needF fs ≤ (printFields fs).length + 2) ∧
    (∀ l : List Json, needI l ≤ (printItems l).length + 2) := by
  refine printChars.mutual_induct
    (fun v => needV v ≤ (printChars v).length + 1)
    (fun fs => needF fs ≤ (printFields fs).length + 2)
    (fun l => needI l ≤ (printItems l).length + 2)
    ?_ ?_ ?_ ?_ ?_ ?_ ?_ ?_ ?_ ?_ ?_ ?_ ?_
  · simp [needV]
  · simp [needV]
  · simp [needV]
  · intro n
    simp [needV]
  · intro s
    simp [needV]
  · intro es ih
    have h1 : needV (Json.arr es) = 1 + needI es := by simp [needV]
    have h2 : (printChars (Json.arr es)).length = (printItems es).length + 2 := by
      simp [printChars]
    omega
  · intro fs ih
    have h1 : needV (Json.obj fs) = 1 + needF fs := by simp [needV]
    have h2 : (printChars (Json.obj fs)).length = (printFields fs).length + 2 := by
      simp [printChars]
    omega
  · simp [needF]
  · intro k v ih
    have h1 : needF [(k, v)] = 1 + max (needV v) (needF []) := by simp [needF]
    have h2 : needF ([] : List (String × Json)) = 1 := by simp [needF]
    have hm : max (needV v) (needF ([] : List (String × Json))) ≤
        needV v + needF ([] : List (String × Json)) :=
      max_le (Nat.le_add_right _ _) (Nat.le_add_left _ _)
    have h3 : (printFields [(k, v)]).length = (strChars k).length + 1 + (printChars v).length := by
      simp [printFields]
      omega
    omega
  · intro k v f2 rest' ihv ihf
    have h1 : needF ((k, v) :: f2 :: rest') = 1 + max (needV v) (needF (f2 :: rest')) := by
      simp [needF]
    have hm : max (needV v) (needF (f2 :: rest')) ≤ needV v + needF (f2 :: rest') :=
      max_le (Nat.le_add_right _ _) (Nat.le_add_left _ _)
    have h3 : (printFields ((k, v) :: f2 :: rest')).length =
        (strChars k).length + 1 + (printChars v).length + 1 + (printFields (f2 :: rest')).length := by
      simp [printFields]
      omega
    omega
  · simp [needI]
  · intro e ih
    have h1 : needI [e] = 1 + max (needV e) (needI []) := by simp [needI]
    have h2 : needI ([] : List Json) = 1 := by simp [needI]
    have hm : max (needV e) (needI ([] : List Json)) ≤ needV e + needI ([] : List Json) :=
      max_le (Nat.le_add_right _ _) (Nat.le_add_left _ _)
    have h3 : (printItems [e]).length = (printChars e).length := by simp [printItems]
    omega
  · intro e e2 rest' ihv ihl
    have h1 : needI (e :: e2 :: rest') = 1 + max (needV e) (needI (e2 :: rest')) := by
      simp [needI]
    have hm : max (needV e) (needI (e2 :: rest')) ≤ needV e + needI (e2 :: rest') :=
      max_le (Nat.le_add_right _ _) (Nat.le_add_left _ _)
    have h3 : (printItems (e :: e2 :: rest')).length =
        (printChars e).length + 1 + (printItems (e2 :: rest')).length := by
      simp [printItems]
      omega
    omega

/-- `JSON.parse` inverts `JSON.stringify` on the modelled value domain. -/
theorem parseJson_stringify (v : Json) : parseJson (stringify v) = some v := by
  have hfuel : needV v ≤ (printChars v).length + 1 := needV_le_print.1 v
  have h := parse_printChars.1 v ((printChars v).length + 1) [] hfuel (by intro c hc; cases hc)
  rw [List.append_nil] at h
  simp only [parseJson, stringify]
  rw [h]
  dsimp only []
  rw [if_pos (show skipWs [] = [] from rfl)]

/-! ### UTF-8 -/

theorem char_valid_nat (c : Char) :
    c.toNat < 0xd800 ∨ (0xdfff < c.toNat ∧ c.toNat < 0x110000) := c.valid

theorem toNat_ofNat_valid {n : Nat} (h : n.isValidChar) : (Char.ofNat n).toNat = n := by
  rw [Char.ofNat, dif_pos h]
  rfl

theorem utf8DecodeCharsF_encodeChar (c : Char) (f : Nat) (rest : List Nat) :
    utf8DecodeCharsF (f + 1) (utf8EncodeChar c ++ rest) =
      match utf8DecodeCharsF f rest with
      | some cs => some (c :: cs)
      | none => none := by
  have hval := char_valid_nat c
  by_cases h1 : c.toNat < 0x80
  · rw [show utf8EncodeChar c ++ rest = c.toNat :: rest from by simp [utf8EncodeChar, h1]]
    simp only [utf8DecodeCharsF]
    rw [if_pos h1]
    simp only [Char.ofNat_toNat]
  · by_cases h2 : c.toNat < 0x800
    · rw [show utf8EncodeChar c ++ rest =
          (0xc0 + c.toNat / 64) :: (0x80 + c.toNat % 64) :: rest from by
        simp [utf8EncodeChar, h1, h2]]
      simp only [utf8DecodeCharsF]
      rw [if_neg (by omega), if_neg (by omega), if_pos (by omega)]
      simp only [utf8Dec2]
      rw [if_pos (by omega)]
      dsimp only []
      simp only [show (0xc0 + c.toNat / 64 - 0xc0) * 64 + (0x80 + c.toNat % 64 - 0x80) =
        c.toNat from by omega]
      simp only [Char.ofNat_toNat]
    · by_cases h3 : c.toNat < 0x10000
      · rw [show utf8EncodeChar c ++ rest =
            (0xe0 + c.toNat / 4096) :: (0x80 + c.toNat / 64 % 64) :: (0x80 + c.toNat % 64) ::
              rest from by
          simp [utf8EncodeChar, h1, h2, h3]]
        simp only [utf8DecodeCharsF]
        rw [if_neg (by omega), if_neg (by omega), if_neg (by omega), if_pos (by omega)]
        simp only [utf8Dec3]
        rw [if_pos (by omega), if_pos (by omega)]
        dsimp only []
        simp only [show (0xe0 + c.toNat / 4096 - 0xe0) * 4096 +
            (0x80 + c.toNat / 64 % 64 - 0x80) * 64 + (0x80 + c.toNat % 64 - 0x80) =
          c.toNat from by omega]
        simp only [Char.ofNat_toNat]
      · rw [show utf8EncodeChar c ++ rest =
            (0xf0 + c.toNat / 262144) :: (0x80 + c.toNat / 4096 % 64) ::
              (0x80 + c.toNat / 64 % 64) :: (0x80 + c.toNat % 64) :: rest from by
          simp [utf8EncodeChar, h1, h2, h3]]
        simp only [utf8DecodeCharsF]
        rw [if_neg (by omega), if_neg (by omega), if_neg (by omega), if_neg (by omega),
          if_pos (by omega)]
        simp only [utf8Dec4]
        rw [if_pos (by omega), if_pos (by omega)]
        dsimp only []
        simp only [show (0xf0 + c.toNat / 262144 - 0xf0) * 262144 +
            (0x80 + c.toNat / 4096 % 64 - 0x80) * 4096 +
            (0x80 + c.toNat / 64 % 64 - 0x80) * 64 + (0x80 + c.toNat % 64 - 0x80) =
          c.toNat from by omega]
        simp only [Char.ofNat_toNat]

theorem utf8DecodeCharsF_flatMap :
    ∀ (cs : List Char) (fuel : Nat), cs.length ≤ fuel →
      utf8DecodeCharsF fuel (cs.flatMap utf8EncodeChar) = some cs := by
  intro cs
  induction cs with
  | nil => intro fuel _; cases fuel <;> rfl
  | cons c cs ih =>
    intro fuel hf
    rw [List.length_cons] at hf
    obtain ⟨f, rfl⟩ : ∃ f, fuel = f + 1 := ⟨fuel - 1, by omega⟩
    rw [List.flatMap_cons, utf8DecodeCharsF_encodeChar, ih f (by omega)]

theorem utf8EncodeChar_length_pos (c : Char) : 1 ≤ (utf8EncodeChar c).length := by
  simp only [utf8EncodeChar]
  split
  · simp
  · split
    · simp
    · split <;> simp

/-- Decoding inverts encoding: `Buffer.from(s).toString()` is `s`. -/
theorem utf8Decode_encode (s : String) : utf8Decode (utf8Encode s) = some s := by
  have hlen : s.data.length ≤ (s.data.flatMap utf8EncodeChar).length := by
    induction s.data with
    | nil => simp
    | cons c cs ih =>
      rw [List.flatMap_cons, List.length_append, List.length_cons]
      have := utf8EncodeChar_length_pos c
      omega
  rw [utf8Encode, utf8Decode, utf8DecodeChars,
    utf8DecodeCharsF_flatMap s.data _ hlen]

theorem utf8EncodeChar_lt (c : Char) : ∀ b ∈ utf8EncodeChar c, b < 256 := by
  have hval := char_valid_nat c
  intro b hb
  by_cases h1 : c.toNat < 0x80
  · simp [utf8EncodeChar, h1] at hb
    omega
  · by_cases h2 : c.toNat < 0x800
    · simp [utf8EncodeChar, h1, h2] at hb
      rcases hb with rfl | rfl <;> omega
    · by_cases h3 : c.toNat < 0x10000
      · simp [utf8EncodeChar, h1, h2, h3] at hb
        rcases hb with rfl | rfl | rfl <;> omega
      · simp [utf8EncodeChar, h1, h2, h3] at hb
        rcases hb with rfl | rfl | rfl | rfl <;> omega

theorem utf8Encode_lt (s : String) : ∀ b ∈ utf8Encode s, b < 256 := by
  intro b hb
  rw [utf8Encode, List.mem_flatMap] at hb
  obtain ⟨c, _, hc⟩ := hb
  exact utf8EncodeChar_lt c b hc

/-! ### base64, hex, latin1 -/

theorem b64Val?_b64Char : ∀ i, i < 64 → b64Val? (b64Char i) = some i := by decide

theorem b64Val?_eq : b64Val? '=' = none := by decide

theorem b64Decode_b64Chars :
    ∀ bs : List Nat, (∀ b ∈ bs, b < 256) → b64Decode (b64Chars bs) = bs := by
  intro bs
  induction bs using b64Chars.induct with
  | case1 b1 b2 b3 rest ih =>
    intro h
    have hb1 : b1 < 256 := h b1 (by simp)
    have hb2 : b2 < 256 := h b2 (by simp)
    have hb3 : b3 < 256 := h b3 (by simp)
    rw [show b64Chars (b1 :: b2 :: b3 :: rest) =
        b64Char (b1 / 4) :: b64Char ((b1 % 4) * 16 + b2 / 16) ::
          b64Char ((b2 % 16) * 4 + b3 / 64) :: b64Char (b3 % 64) :: b64Chars rest from rfl]
    rw [b64Decode]
    simp only [List.filterMap_cons,
      b64Val?_b64Char (b1 / 4) (by omega),
      b64Val?_b64Char ((b1 % 4) * 16 + b2 / 16) (by omega),
      b64Val?_b64Char ((b2 % 16) * 4 + b3 / 64) (by omega),
      b64Val?_b64Char (b3 % 64) (by omega)]
    rw [show b64DecodeSextets (b1 / 4 :: ((b1 % 4) * 16 + b2 / 16) ::
          ((b2 % 16) * 4 + b3 / 64) :: (b3 % 64) :: List.filterMap b64Val? (b64Chars rest)) =
        ((b1 / 4) * 4 + ((b1 % 4) * 16 + b2 / 16) / 16) ::
          ((((b1 % 4) * 16 + b2 / 16) % 16) * 16 + ((b2 % 16) * 4 + b3 / 64) / 4) ::
          ((((b2 % 16) * 4 + b3 / 64) % 4) * 64 + b3 % 64) ::
          b64DecodeSextets (List.filterMap b64Val? (b64Chars rest)) from rfl]
    rw [show (b1 / 4) * 4 + ((b1 % 4) * 16 + b2 / 16) / 16 = b1 from by omega]
    rw [show (((b1 % 4) * 16 + b2 / 16) % 16) * 16 + ((b2 % 16) * 4 + b3 / 64) / 4 = b2 from by
      omega]
    rw [show (((b2 % 16) * 4 + b3 / 64) % 4) * 64 + b3 % 64 = b3 from by omega]
    rw [show b64DecodeSextets (List.filterMap b64Val? (b64Chars rest)) =
        b64Decode (b64Chars rest) from rfl]
    rw [ih (fun b hb => h b (by simp [hb]))]
  | case2 b1 b2 =>
    intro h
    have hb1 : b1 < 256 := h b1 (by simp)
    have hb2 : b2 < 256 := h b2 (by simp)
    rw [show b64Chars [b1, b2] =
        [b64Char (b1 / 4), b64Char ((b1 % 4) * 16 + b2 / 16), b64Char ((b2 % 16) * 4), '='] from
      rfl]
    rw [b64Decode]
    simp only [List.filterMap_cons, List.filterMap_nil,
      b64Val?_b64Char (b1 / 4) (by omega),
      b64Val?_b64Char ((b1 % 4) * 16 + b2 / 16) (by omega),
      b64Val?_b64Char ((b2 % 16) * 4) (by omega), b64Val?_eq]
    rw [show b64DecodeSextets [b1 / 4, (b1 % 4) * 16 + b2 / 16, (b2 % 16) * 4] =
        [(b1 / 4) * 4 + ((b1 % 4) * 16 + b2 / 16) / 16,
          (((b1 % 4) * 16 + b2 / 16) % 16) * 16 + ((b2 % 16) * 4) / 4] from rfl]
    rw [show (b1 / 4) * 4 + ((b1 % 4) * 16 + b2 / 16) / 16 = b1 from by omega]
    rw [show (((b1 % 4) * 16 + b2 / 16) % 16) * 16 + ((b2 % 16) * 4) / 4 = b2 from by omega]
  | case3 b1 =>
    intro h
    have hb1 : b1 < 256 := h b1 (by simp)
    rw [show b64Chars [b1] = [b64Char (b1 / 4), b64Char ((b1 % 4) * 16), '=', '='] from rfl]
    rw [b64Decode]
    simp only [List.filterMap_cons, List.filterMap_nil,
      b64Val?_b64Char (b1 / 4) (by omega), b64Val?_b64Char ((b1 % 4) * 16) (by omega), b64Val?_eq]
    rw [show b64DecodeSextets [b1 / 4, (b1 % 4) * 16] =
        [(b1 / 4) * 4 + ((b1 % 4) * 16) / 16] from rfl]
    rw [show (b1 / 4) * 4 + ((b1 % 4) * 16) / 16 = b1 from by omega]
  | case4 =>
    intro _
    rfl

theorem hexDecode_hexChars :
    ∀ bs : List Nat, (∀ b ∈ bs, b < 256) → hexDecode (hexChars bs) = bs := by
  intro bs
  induction bs with
  | nil => intro _; rfl
  | cons b rest ih =>
    intro h
    have hb : b < 256 := h b (by simp)
    rw [show hexChars (b :: rest) =
        digitChar (b / 16) :: digitChar (b % 16) :: hexChars rest from rfl]
    rw [show hexDecode (digitChar (b / 16) :: digitChar (b % 16) :: hexChars rest) =
        (match hexVal? (digitChar (b / 16)), hexVal? (digitChar (b % 16)) with
         | some a, some b2 => (16 * a + b2) :: hexDecode (hexChars rest)
         | _, _ => []) from rfl]
    rw [hexVal?_digitChar _ (by omega), hexVal?_digitChar _ (by omega)]
    dsimp only []
    rw [show 16 * (b / 16) + b % 16 = b from by omega, ih (fun x hx => h x (by simp [hx]))]

theorem latin1Decode_latin1Chars :
    ∀ bs : List Nat, (∀ b ∈ bs, b < 256) → latin1Decode (latin1Chars bs) = bs := by
  intro bs h
  rw [latin1Chars, latin1Decode, List.map_map]
  conv_rhs => rw [← List.map_id bs]
  apply List.map_congr_left
  intro b hb
  have hb2 : b < 256 := h b hb
  show (Char.ofNat (b % 256)).toNat % 256 = b
  rw [Nat.mod_eq_of_lt hb2, toNat_ofNat_valid (Or.inl (by omega)), Nat.mod_eq_of_lt hb2]

/-! ### The CTR keystream XOR -/

theorem ctrXorFrom_lt (ks : Nat → Nat) :
    ∀ (bs : List Nat) (i : Nat), ∀ x ∈ ctrXorFrom ks i bs, x < 256 := by
  intro bs
  induction bs with
  | nil => intro i x hx; simp [ctrXorFrom] at hx
  | cons b rest ih =>
    intro i x hx
    rw [ctrXorFrom] at hx
    rcases List.mem_cons.mp hx with rfl | hx
    · have h1 : b % 256 < 2 ^ 8 := by omega
      have h2 : ks i % 256 < 2 ^ 8 := by omega
      have := Nat.xor_lt_two_pow h1 h2
      omega
    · exact ih (i + 1) x hx

theorem ctrXorFrom_invol (ks : Nat → Nat) :
    ∀ (bs : List Nat) (i : Nat), (∀ b ∈ bs, b < 256) →
      ctrXorFrom ks i (ctrXorFrom ks i bs) = bs := by
  intro bs
  induction bs with
  | nil => intro i _; rfl
  | cons b rest ih =>
    intro i h
    have hb : b < 256 := h b (by simp)
    rw [ctrXorFrom, ctrXorFrom]
    have hx : (b % 256) ^^^ (ks i % 256) < 256 := by
      have h1 : b % 256 < 2 ^ 8 := by omega
      have h2 : ks i % 256 < 2 ^ 8 := by omega
      have := Nat.xor_lt_two_pow h1 h2
      omega
    rw [Nat.mod_eq_of_lt hx, Nat.xor_cancel_right, Nat.mod_eq_of_lt hb,
      ih (i + 1) (fun x hx2 => h x (by simp [hx2]))]

theorem ctrXor_invol (ks : Nat → Nat) (bs : List Nat) (h : ∀ b ∈ bs, b < 256) :
    ctrXor ks (ctrXor ks bs) = bs := ctrXorFrom_invol ks bs 0 h

theorem ctrXor_lt (ks : Nat → Nat) (bs : List Nat) : ∀ x ∈ ctrXor ks bs, x < 256 :=
  fun x hx => ctrXorFrom_lt ks bs 0 x hx

/-! ### encode / decode (C7) -/

/-- Claim C7 (counterexample): with the supported encoding `utf16le` the
round-trip law fails — `encode(1, 'utf16le')` produces the single UTF-8
byte of `"1"`, `buffer.toString('utf16le')` drops the odd trailing byte
yielding `""`, and decoding `""` fails in `JSON.parse` — so
`decode(encode(1, enc), enc)` is not `1` for every supported encoding. -/
theorem decode_encode_utf16le_cex :
    decode (encode (Json.num 1) BufEncoding.utf16le) BufEncoding.utf16le = none ∧
    (none : Option Json) ≠ some (Json.num 1) := by
  constructor
  · have h : stringify (Json.num 1) = "1" := by
      simp [stringify, printChars, intChars, decChars, toBaseChars, digitChar]
    show decode (bufToString (utf8Encode (stringify (Json.num 1))) BufEncoding.utf16le)
        BufEncoding.utf16le = none
    rw [h]
    rfl
  · simp

/-- Claim C7 (amended): `decode(encode(X, enc), enc)` returns `X` for the
byte-faithful text encodings — base64 (the default), hex and latin1 — for
every modelled JSON value `X`; it does not hold for every supported
encoding (see the `utf16le` counterexample). -/
theorem decode_encode_roundtrip (v : Json) :
    decode (encode v BufEncoding.base64) BufEncoding.base64 = some v ∧
    decode (encode v BufEncoding.hex) BufEncoding.hex = some v ∧
    decode (encode v BufEncoding.latin1) BufEncoding.latin1 = some v := by
  have hb : ∀ b ∈ utf8Encode (stringify v), b < 256 := utf8Encode_lt _
  refine ⟨?_, ?_, ?_⟩
  · show (match utf8Decode (b64Decode (b64Chars (utf8Encode (stringify v)))) with
        | some txt => parseJson txt
        | none => none) = some v
    rw [b64Decode_b64Chars _ hb, utf8Decode_encode]
    dsimp only []
    rw [parseJson_stringify]
  · show (match utf8Decode (hexDecode (hexChars (utf8Encode (stringify v)))) with
        | some txt => parseJson txt
        | none => none) = some v
    rw [hexDecode_hexChars _ hb, utf8Decode_encode]
    dsimp only []
    rw [parseJson_stringify]
  · show (match utf8Decode (latin1Decode (latin1Chars (utf8Encode (stringify v)))) with
        | some txt => parseJson txt
        | none => none) = some v
    rw [latin1Decode_latin1Chars _ hb, utf8Decode_encode]
    dsimp only []
    rw [parseJson_stringify]

/-! ### encrypt / decrypt (C5, C6) -/

theorem encrypt_decrypt_aux (ks : List Nat → List Nat → Nat → Nat) (v : Json)
    (key iv : List Nat) (r : EncResult) (hivb : ∀ b ∈ iv, b < 256)
    (he : encrypt ks v key iv = some r) : decrypt ks r key = some v := by
  rw [encrypt] at he
  by_cases hk : key.length = 32 ∧ iv.length = 16
  · rw [if_pos hk] at he
    obtain ⟨hk32, hiv16⟩ := hk
    have hr := (Option.some.inj he).symm
    subst hr
    rw [decrypt]
    dsimp only []
    rw [b64Decode_b64Chars iv hivb,
      b64Decode_b64Chars _ (ctrXor_lt (ks key iv) _)]
    rw [if_pos ⟨hk32, hiv16⟩]
    rw [ctrXor_invol (ks key iv) _ (utf8Encode_lt (stringify v)), utf8Decode_encode]
    dsimp only []
    rw [parseJson_stringify]
  · rw [if_neg hk] at he
    cases he

/-- Claim C5: for every modelled JSON value, 32-byte key and drawn
16-byte iv (bytes being < 256), whatever ciphertext record `encrypt`
produced decrypts back to the original value with the same key —
`decrypt(encrypt(X, key), key) = X` — for any keystream the platform
cipher induces on `(key, iv)`. -/
theorem encrypt_decrypt_roundtrip (ks : List Nat → List Nat → Nat → Nat) (v : Json)
    (key iv : List Nat) (r : EncResult) (hivb : ∀ b ∈ iv, b < 256)
    (he : encrypt ks v key iv = some r) : decrypt ks r key = some v :=
  encrypt_decrypt_aux ks v key iv r hivb he

/-- Witness for C5: the zero keystream, the 32-zero-byte key, the 16-zero
iv and the value `null`; the theorem instance decrypts the concrete
record back to `null`. -/
theorem encrypt_decrypt_roundtrip_witness :
    (∀ b ∈ List.replicate 16 0, b < 256) ∧
    encrypt (fun _ _ _ => 0) Json.null (List.replicate 32 0) (List.replicate 16 0) =
      some ⟨"AAAAAAAAAAAAAAAAAAAAAA==", "bnVsbA=="⟩ ∧
    decrypt (fun _ _ _ => 0) ⟨"AAAAAAAAAAAAAAAAAAAAAA==", "bnVsbA=="⟩
      (List.replicate 32 0) = some Json.null := by
  have henc : encrypt (fun _ _ _ => 0) Json.null (List.replicate 32 0) (List.replicate 16 0) =
      some ⟨"AAAAAAAAAAAAAAAAAAAAAA==", "bnVsbA=="⟩ := by
    have h : stringify Json.null = "null" := by simp [stringify, printChars]
    rw [encrypt, h]
    rfl
  exact ⟨by decide, henc,
    encrypt_decrypt_roundtrip (fun _ _ _ => 0) Json.null (List.replicate 32 0)
      (List.replicate 16 0) ⟨"AAAAAAAAAAAAAAAAAAAAAA==", "bnVsbA=="⟩ (by decide) henc⟩

/-- Claim C6, counterexample to the malformed-ciphertext conjunct: the
claim says `decrypt` raises when the ciphertext is malformed/truncated,
but base64 decoding is forgiving and CTR has no integrity check.  With
the zero keystream, `encrypt(42)` produces the ciphertext `NDI=`;
truncating the ciphertext to its first byte (base64 `NA==`, as the second
conjunct states) makes `decrypt` return `4` — a silently wrong value, not
an error. -/
theorem decrypt_malformed_ciphertext_cex :
    encrypt (fun _ _ _ => 0) (Json.num 42) (List.replicate 32 0) (List.replicate 16 0) =
      some ⟨"AAAAAAAAAAAAAAAAAAAAAA==", "NDI="⟩ ∧
    b64Decode ("NA==".data) = (b64Decode ("NDI=".data)).take 1 ∧
    decrypt (fun _ _ _ => 0) ⟨"AAAAAAAAAAAAAAAAAAAAAA==", "NA=="⟩
      (List.replicate 32 0) = some (Json.num 4) := by
  have h : stringify (Json.num 42) = "42" := by
    simp only [stringify, printChars]
    rfl
  refine ⟨?_, by decide, ?_⟩
  · rw [encrypt, h]
    rfl
  · rfl

/-- Claim C6 (amended): `encrypt` and `decrypt` raise (return `none`, the
model of a thrown error) whenever the key is not exactly 32 bytes;
`decrypt` also raises when the decoded iv is malformed (not 16 bytes);
with a 32-byte key and well-formed inputs — a 16-byte iv for `encrypt`,
a record `encrypt` produced for `decrypt` — neither raises.  A malformed
or truncated ciphertext, however, need not raise: `decrypt` fails on it
only if the XORed bytes fail UTF-8 decoding or parsing. -/
theorem encrypt_decrypt_key_errors :
    (∀ (ks : List Nat → List Nat → Nat → Nat) (v : Json) (key iv : List Nat),
      key.length ≠ 32 → encrypt ks v key iv = none) ∧
    (∀ (ks : List Nat → List Nat → Nat → Nat) (r : EncResult) (key : List Nat),
      key.length ≠ 32 → decrypt ks r key = none) ∧
    (∀ (ks : List Nat → List Nat → Nat → Nat) (r : EncResult) (key : List Nat),
      (b64Decode r.iv.data).length ≠ 16 → decrypt ks r key = none) ∧
    (∀ (ks : List Nat → List Nat → Nat → Nat) (v : Json) (key iv : List Nat),
      key.length = 32 → iv.length = 16 → encrypt ks v key iv ≠ none) ∧
    (∀ (ks : List Nat → List Nat → Nat → Nat) (v : Json) (key iv : List Nat) (r : EncResult),
      (∀ b ∈ iv, b < 256) → encrypt ks v key iv = some r → decrypt ks r key ≠ none) := by
  refine ⟨?_, ?_, ?_, ?_, ?_⟩
  · intro ks v key iv h
    rw [encrypt, if_neg (fun hc => h hc.1)]
  · intro ks r key h
    rw [decrypt]
    rw [if_neg (fun hc => h hc.1)]
  · intro ks r key h
    rw [decrypt]
    rw [if_neg (fun hc => h hc.2)]
  · intro ks v key iv hk hiv
    rw [encrypt, if_pos ⟨hk, hiv⟩]
    simp
  · intro ks v key iv r hivb he
    rw [encrypt_decrypt_aux ks v key iv r hivb he]
    simp

/-- Witness for C6: a 31-byte key makes both operations fail; the 32-byte
zero key with the 16-byte zero iv makes `encrypt` succeed and `decrypt`
invert it; a record with an empty iv makes `decrypt` fail. -/
theorem encrypt_decrypt_key_errors_witness :
    encrypt (fun _ _ _ => 0) Json.null (List.replicate 31 0) (List.replicate 16 0) = none ∧
    decrypt (fun _ _ _ => 0) ⟨"", ""⟩ (List.replicate 31 0) = none ∧
    decrypt (fun _ _ _ => 0) ⟨"", ""⟩ (List.replicate 32 0) = none ∧
    encrypt (fun _ _ _ => 0) Json.null (List.replicate 32 0) (List.replicate 16 0) ≠ none ∧
    decrypt (fun _ _ _ => 0) ⟨"AAAAAAAAAAAAAAAAAAAAAA==", "bnVsbA=="⟩
      (List.replicate 32 0) ≠ none := by
  have henc : encrypt (fun _ _ _ => 0) Json.null (List.replicate 32 0) (List.replicate 16 0) =
      some ⟨"AAAAAAAAAAAAAAAAAAAAAA==", "bnVsbA=="⟩ := by
    have h : stringify Json.null = "null" := by simp [stringify, printChars]
    rw [encrypt, h]
    rfl
  refine ⟨?_, ?_, ?_, ?_, ?_⟩
  · exact encrypt_decrypt_key_errors.1 _ Json.null _ _ (by decide)
  · exact encrypt_decrypt_key_errors.2.1 _ ⟨"", ""⟩ _ (by decide)
  · exact encrypt_decrypt_key_errors.2.2.1 _ ⟨"", ""⟩ _ (by decide)
  · exact encrypt_decrypt_key_errors.2.2.2.1 _ Json.null _ _ (by decide) (by decide)
  · exact encrypt_decrypt_key_errors.2.2.2.2 _ Json.null _ _ _ (by decide) henc

/-- Witness for the amended C9 at the array `[10, 20]` and the object
`[("a", 1)]`. -/
theorem iterate_pairs_characterization_witness :
    ((iterateArr [10, 20]).1 ++ [(iterateArr [10, 20]).2] =
      (List.range ([10, 20] : List Nat).length).map
        (fun (i : Nat) => ((i : Int), ([10, 20] : List Nat).get? i))) ∧
    (∃ last, iterateObj [("a", 1)] = some (([("a", 1)] : List (String × Nat)).dropLast, last) ∧
      ([("a", 1)] : List (String × Nat)).dropLast ++ [last] = [("a", 1)]) :=
  ⟨iterate_pairs_characterization.1 Nat [10, 20] (by decide),
    iterate_pairs_characterization.2 Nat [("a", 1)] (by simp)⟩

end Sagus
